import Mathlib

/-!
Nompose: source classification, compose normalisation and interactive confirmation.

A shallow embedding of `internal/detector/detector.go`,
`internal/parser/docker_compose.go`, `internal/interactive/confirm.go` and
`internal/types/types.go`.

Modelling conventions.

* A Go `string` is a Lean `String`, read as its sequence of runes: the inputs are
  well-formed UTF-8 text.
* The Go standard-library functions the program calls (`strings.TrimSpace`,
  `strings.HasPrefix`, `strings.Contains`, `strings.ToLower`, `strings.Split`,
  `strings.SplitN`, `filepath.Base`, `filepath.Ext`, `strconv.Atoi`) are written
  out below after their documented behaviour, `filepath` for a platform whose only
  path separator is `/`, `int` as the 64-bit signed integers.
* A dynamically typed YAML value (`interface{}`) is a `Value`; a Go map is the list
  of its entries in the order a `range` loop visits them.
* The terminal is the list of input lines not yet read by the `bufio.Scanner`;
  what the program prints is not part of the model.
-/

namespace Nompose

/-! ## Standard-library string functions -/

namespace unicode

/-- The runes Go's `unicode.IsSpace` accepts (Unicode property White_Space). -/
def IsSpace (c : Char) : Bool :=
  let n := c.toNat
  (9 ≤ n && n ≤ 13) || n == 0x20 || n == 0x85 || n == 0xA0 || n == 0x1680 ||
  (0x2000 ≤ n && n ≤ 0x200A) || n == 0x2028 || n == 0x2029 || n == 0x202F ||
  n == 0x205F || n == 0x3000

/-- Go's `unicode.ToLower` on every rune whose lower-case form is an ASCII letter:
the letters `A`..`Z`, U+0130 (lowered to `i`) and U+212A (lowered to `k`). A rune
lowered to a non-ASCII rune is left as it is; the program only ever compares
lower-cased text with ASCII literals, which cannot tell the difference. -/
def ToLower (c : Char) : Char :=
  let n := c.toNat
  if 65 ≤ n ∧ n ≤ 90 then Char.ofNat (n + 32)
  else if n = 0x130 then 'i'
  else if n = 0x212A then 'k'
  else c

end unicode

namespace strings

/-- List form of `strings.TrimSpace`: white space removed at both ends. -/
def trimSpaceL (l : List Char) : List Char :=
  ((l.dropWhile unicode.IsSpace).reverse.dropWhile unicode.IsSpace).reverse

/-- Go's `strings.TrimSpace`. -/
def TrimSpace (s : String) : String := ⟨trimSpaceL s.data⟩

/-- Go's `strings.HasPrefix`. -/
def HasPrefix (s pre : String) : Bool := pre.data.isPrefixOf s.data

/-- List form of `strings.Contains`: `sub` starts at some position of `l`. -/
def containsL (sub : List Char) : List Char → Bool
  | [] => sub.isPrefixOf []
  | c :: l => sub.isPrefixOf (c :: l) || containsL sub l

/-- Go's `strings.Contains`. -/
def Contains (s substr : String) : Bool := containsL substr.data s.data

/-- Go's `strings.ToLower`. -/
def ToLower (s : String) : String := ⟨s.data.map unicode.ToLower⟩

/-- The fields of `l` between the occurrences of `sep`; `cur` is the field being
read, reversed. -/
def splitL (sep : Char) : List Char → List Char → List (List Char)
  | [], cur => [cur.reverse]
  | c :: l, cur =>
    if c = sep then cur.reverse :: splitL sep l [] else splitL sep l (c :: cur)

/-- Go's `strings.Split` for a separator of one rune: all the fields between the
occurrences of the separator. -/
def Split (s : String) (sep : Char) : List String :=
  (splitL sep s.data []).map String.mk

/-- The text before the first `sep` and the text after it, when `sep` occurs. -/
def cutL (sep : Char) : List Char → Option (List Char × List Char)
  | [] => none
  | c :: l =>
    if c = sep then some ([], l)
    else match cutL sep l with
      | some (a, b) => some (c :: a, b)
      | none => none

/-- Go's `strings.SplitN(s, sep, 2)` for a separator of one rune: the text before
the first separator and the text after it, or `s` alone without a separator. -/
def SplitN2 (s : String) (sep : Char) : List String :=
  match cutL sep s.data with
  | some (a, b) => [⟨a⟩, ⟨b⟩]
  | none => [s]

end strings

namespace filepath

/-- List form of `filepath.Base` for a non-empty path: trailing separators are
stripped and the text after the last remaining separator is kept. -/
def lastElement (l : List Char) : List Char :=
  ((l.reverse.dropWhile (fun c => c == '/')).takeWhile (fun c => c != '/')).reverse

/-- Go's `filepath.Base`: the last element of the path; `.` for the empty path and
`/` for a path made of separators only. -/
def Base (path : String) : String :=
  if path = "" then "."
  else
    let e := lastElement path.data
    if e = [] then "/" else ⟨e⟩

/-- The backwards scan of `filepath.Ext`: `rev` is the part of the path still to
the left of the cursor, reversed; `acc` is the part to its right. -/
def extScan : List Char → List Char → List Char
  | [], _ => []
  | c :: rev, acc =>
    if c = '/' then []
    else if c = '.' then '.' :: acc
    else extScan rev (c :: acc)

/-- Go's `filepath.Ext`: the suffix starting at the last dot of the last path
element, empty when there is no such dot. -/
def Ext (path : String) : String := ⟨extScan path.data.reverse []⟩

end filepath

namespace strconv

/-- Largest value of the Go type `int`. -/
def maxInt : Nat := 2 ^ 63 - 1

/-- The value of a run of decimal digits, `acc` being the value read so far;
nothing when a rune is not an ASCII digit. -/
def digitsValue : List Char → Nat → Option Nat
  | [], acc => some acc
  | c :: cs, acc =>
    if 48 ≤ c.toNat ∧ c.toNat ≤ 57 then digitsValue cs (10 * acc + (c.toNat - 48))
    else none

/-- Go's `strconv.Atoi`: an optional sign followed by at least one decimal digit,
the value lying in the range of `int`; `none` stands for the error result. -/
def Atoi (s : String) : Option Int :=
  match s.data with
  | [] => none
  | '-' :: ds =>
    if ds = [] then none
    else match digitsValue ds 0 with
      | some n => if n ≤ maxInt + 1 then some (-(n : Int)) else none
      | none => none
  | '+' :: ds =>
    if ds = [] then none
    else match digitsValue ds 0 with
      | some n => if n ≤ maxInt then some (n : Int) else none
      | none => none
  | ds =>
    match digitsValue ds 0 with
    | some n => if n ≤ maxInt then some (n : Int) else none
    | none => none

end strconv

/-! ## `internal/types` -/

namespace types

/-- The Go type `SourceType`, a string. -/
abbrev SourceType := String

def SourceDockerCompose : SourceType := "docker-compose"
def SourceDockerfile : SourceType := "dockerfile"
def SourceDockerImage : SourceType := "docker-image"
def SourceLocalDir : SourceType := "local-directory"
def SourceGitHubRepo : SourceType := "github-repo"

/-- The Go struct `DetectionResult`; a field the code does not set holds its zero
value. -/
structure DetectionResult where
  SourceType : SourceType := ""
  Source : String := ""
  Valid : Bool := false
  Error : String := ""
deriving DecidableEq, Repr

/-- A dynamically typed value (`interface{}`) as the YAML decoder produces it.
A mapping lists its entries in the order a `range` loop visits them; its keys are
pairwise distinct. -/
inductive Value where
  | null
  | bool (b : Bool)
  | int (n : Int)
  | str (s : String)
  | seq (items : List Value)
  | map (entries : List (String × Value))
  | other (printed : String)

/-- The index expression `m[key]` on a `map[string]interface{}`. -/
def Value.lookup : List (String × Value) → String → Option Value
  | [], _ => none
  | (k, v) :: m, key => if k = key then some v else Value.lookup m key

/-- A Go `map[string]string`, as the list of its entries. -/
abbrev StringMap := List (String × String)

/-- The assignment `m[key] = value`. -/
def StringMap.set : StringMap → String → String → StringMap
  | [], key, value => [(key, value)]
  | (k, v) :: m, key, value =>
    if k = key then (k, value) :: m else (k, v) :: StringMap.set m key value

/-- The index expression `m[key]`, with its presence flag. -/
def StringMap.get : StringMap → String → Option String
  | [], _ => none
  | (k, v) :: m, key => if k = key then some v else StringMap.get m key

/-- The Go struct `PortMapping`. -/
structure PortMapping where
  Host : Int := 0
  Container : Int := 0
  Protocol : String := ""
deriving DecidableEq, Repr

/-- The Go struct `HealthCheckConfig`. -/
structure HealthCheckConfig where
  Test : Value := Value.null
  Interval : String := ""
  Timeout : String := ""
  Retries : Int := 0
  StartPeriod : String := ""

/-- The Go struct `DeployConfig`. -/
structure DeployConfig where
  Replicas : Int := 0

/-- The Go struct `DockerComposeService`. -/
structure DockerComposeService where
  Image : String := ""
  Build : Value := Value.null
  Ports : List Value := []
  Environment : Value := Value.null
  Volumes : List String := []
  DependsOn : Value := Value.null
  HealthCheck : Option HealthCheckConfig := none
  Deploy : Option DeployConfig := none
  Restart : String := ""
  Networks : Value := Value.null
  Command : Value := Value.null
  WorkingDir : String := ""
  User : String := ""
  Labels : StringMap := []
  Expose : List String := []

/-- The Go struct `EnhancedServiceConfig`. -/
structure EnhancedServiceConfig where
  Name : String := ""
  OriginalService : DockerComposeService := {}
  ResolvedImage : String := ""
  ResolvedPorts : List PortMapping := []
  Environment : StringMap := []
  Dependencies : List String := []

end types

/-! ## `internal/detector` -/

namespace detector

open types

/-- The method `DetectSourceType` of `detector.go`. -/
def DetectSourceType (source : String) : DetectionResult :=
  let source := strings.TrimSpace source
  if source = "" then
    { Valid := false, Error := "empty source provided" }
  else if strings.HasPrefix source "http://" || strings.HasPrefix source "https://" then
    if strings.Contains source "github.com" then
      { SourceType := SourceGitHubRepo, Source := source, Valid := true }
    else
      { Valid := false, Error := "URL provided but not a supported GitHub repository" }
  else if strings.Contains source ":" && !strings.Contains source "/"
      && !strings.Contains source "\\" then
    { SourceType := SourceDockerImage, Source := source, Valid := true }
  else
    let filename := filepath.Base source
    let extension := strings.ToLower (filepath.Ext source)
    if filename = "docker-compose.yml" || filename = "docker-compose.yaml" ||
        extension = ".yml" || extension = ".yaml" then
      { SourceType := SourceDockerCompose, Source := source, Valid := true }
    else if strings.HasPrefix (strings.ToLower filename) "dockerfile" then
      { SourceType := SourceDockerfile, Source := source, Valid := true }
    else
      { SourceType := SourceLocalDir, Source := source, Valid := true }

end detector

/-! ## `internal/parser` -/

namespace parser

open types

/-- The method `getInitialImage` of `docker_compose.go`. -/
def getInitialImage (service : DockerComposeService) : String :=
  if service.Image ≠ "" then service.Image
  else
    match service.Build with
    | Value.null => "\x7b\x7bNO_IMAGE_SPECIFIED\x7d\x7d"
    | Value.str build => "\x7b\x7bBUILD_REQUIRED:" ++ build ++ "\x7d\x7d"
    | Value.map build =>
      match Value.lookup build "context" with
      | some (Value.str context) => "\x7b\x7bBUILD_REQUIRED:" ++ context ++ "\x7d\x7d"
      | _ => "\x7b\x7bBUILD_REQUIRED:" ++ "." ++ "\x7d\x7d"
    | _ => "\x7b\x7bBUILD_REQUIRED:" ++ "." ++ "\x7d\x7d"

/-- The method `parsePortString` of `docker_compose.go`. -/
def parsePortString (portStr : String) : Option PortMapping :=
  if strings.Contains portStr ":" then
    match strings.Split portStr ':' with
    | p0 :: p1 :: _ =>
      match strconv.Atoi p0, strconv.Atoi p1 with
      | some host, some container =>
        some { Host := host, Container := container, Protocol := "tcp" }
      | _, _ => none
    | _ => none
  else
    match strconv.Atoi portStr with
    | some port => some { Host := port, Container := port, Protocol := "tcp" }
    | none => none

/-- The method `parsePortObject` of `docker_compose.go`. -/
def parsePortObject (portObj : List (String × Value)) : Option PortMapping :=
  let mapping : PortMapping := { Protocol := "tcp" }
  let mapping : PortMapping := match Value.lookup portObj "target" with
    | some (Value.int target) => { mapping with Container := target }
    | _ => mapping
  let mapping : PortMapping := match Value.lookup portObj "published" with
    | some (Value.int published) => { mapping with Host := published }
    | _ => mapping
  let mapping : PortMapping := match Value.lookup portObj "protocol" with
    | some (Value.str protocol) => { mapping with Protocol := protocol }
    | _ => mapping
  if mapping.Container > 0 ∧ mapping.Host > 0 then some mapping else none

/-- One turn of the loop of `parsePorts`. -/
def parsePortsStep (mappings : List PortMapping) (port : Value) : List PortMapping :=
  match port with
  | Value.str portVal =>
    match parsePortString portVal with
    | some mapping => mappings ++ [mapping]
    | none => mappings
  | Value.int portVal =>
    mappings ++ [{ Host := portVal, Container := portVal, Protocol := "tcp" }]
  | Value.map portVal =>
    match parsePortObject portVal with
    | some mapping => mappings ++ [mapping]
    | none => mappings
  | _ => mappings

/-- The method `parsePorts` of `docker_compose.go`. -/
def parsePorts (ports : List Value) : List PortMapping :=
  ports.foldl parsePortsStep []

/-- One turn of the loop of `parseEnvironment` over a sequence. -/
def parseEnvironmentStep (result : StringMap) (item : Value) : StringMap :=
  match item with
  | Value.str envStr =>
    if strings.Contains envStr "=" then
      match strings.SplitN2 envStr '=' with
      | p0 :: p1 :: _ => StringMap.set result p0 p1
      | _ => result
    else result
  | _ => result

/-- The method `parseEnvironment` of `docker_compose.go`; `sprint` is the rendering
`fmt.Sprintf("%v", value)` of a mapping's values. -/
def parseEnvironment (sprint : Value → String) (env : Value) : StringMap :=
  match env with
  | Value.map environment =>
    environment.foldl (fun result kv => StringMap.set result kv.1 (sprint kv.2)) []
  | Value.seq environment => environment.foldl parseEnvironmentStep []
  | _ => []

/-- One turn of the loop of `parseDependencies` over a sequence. -/
def parseDependenciesStep (result : List String) (dep : Value) : List String :=
  match dep with
  | Value.str depStr => result ++ [depStr]
  | _ => result

/-- The method `parseDependencies` of `docker_compose.go`. -/
def parseDependencies (deps : Value) : List String :=
  match deps with
  | Value.seq depsVal => depsVal.foldl parseDependenciesStep []
  | Value.map depsVal => depsVal.foldl (fun result kv => result ++ [kv.1]) []
  | _ => []

end parser

/-! ## `internal/interactive` -/

namespace interactive

open types

/-- The method `promptForInput` of `confirm.go`. The last argument is the list of
lines the scanner has not read yet; the result pairs the returned value or error
with the lines left unread. -/
def promptForInput (fieldName currentValue : String) (required : Bool) :
    List String → Except String String × List String
  | [] => (Except.error "failed to read user input", [])
  | line :: rest =>
    let input := strings.TrimSpace line
    if currentValue ≠ "" then
      if input = "" ∨ strings.ToLower input = "y" ∨ strings.ToLower input = "yes" then
        (Except.ok "", rest)
      else if strings.ToLower input = "n" ∨ strings.ToLower input = "no" then
        match rest with
        | [] => (Except.error "failed to read user input", [])
        | line2 :: rest2 =>
          let input := strings.TrimSpace line2
          if required = true ∧ input = "" then promptForInput fieldName "" required rest2
          else (Except.ok input, rest2)
      else if required = true ∧ input = "" then promptForInput fieldName "" required rest
      else (Except.ok input, rest)
    else if required = true ∧ input = "" then promptForInput fieldName "" required rest
    else (Except.ok input, rest)

/-- The method `confirmString` of `confirm.go`. -/
def confirmString (fieldName currentValue : String) (required : Bool)
    (lines : List String) : Except String String × List String :=
  promptForInput fieldName currentValue required lines

/-- The method `resolveImage` of `confirm.go`; the service it updates in place is
returned. The build path is only printed. -/
def resolveImage (service : EnhancedServiceConfig) (lines : List String) :
    Except String EnhancedServiceConfig × List String :=
  if strings.HasPrefix service.ResolvedImage "\x7b\x7bBUILD_REQUIRED:" then
    match promptForInput "Choice [1-3]" "1" true lines with
    | (Except.error err, lines) => (Except.error err, lines)
    | (Except.ok choice, lines) =>
      if choice = "1" then
        match promptForInput "Enter image name (e.g., my-app:latest)" "" true lines with
        | (Except.error err, lines) => (Except.error err, lines)
        | (Except.ok imageName, lines) =>
          (Except.ok { service with ResolvedImage := imageName }, lines)
      else if choice = "2" then
        match promptForInput "Enter image name to build (e.g., my-app:latest)"
            (service.Name ++ ":latest") true lines with
        | (Except.error err, lines) => (Except.error err, lines)
        | (Except.ok imageName, lines) =>
          (Except.ok { service with ResolvedImage := imageName }, lines)
      else if choice = "3" then
        match promptForInput "Enter final image name (e.g., registry.com/my-app:latest)"
            "" true lines with
        | (Except.error err, lines) => (Except.error err, lines)
        | (Except.ok imageName, lines) =>
          (Except.ok { service with ResolvedImage := imageName }, lines)
      else (Except.ok { service with ResolvedImage := service.Name ++ ":latest" }, lines)
  else
    match confirmString "Image" service.ResolvedImage true lines with
    | (Except.error err, lines) => (Except.error err, lines)
    | (Except.ok newImage, lines) =>
      if newImage ≠ "" then (Except.ok { service with ResolvedImage := newImage }, lines)
      else (Except.ok service, lines)

/-- The method `confirmPorts` of `confirm.go`. -/
def confirmPorts (service : EnhancedServiceConfig) (lines : List String) :
    Except String EnhancedServiceConfig × List String :=
  if service.ResolvedPorts.length = 0 then (Except.ok service, lines)
  else
    match promptForInput "Keep these port mappings? (Y/n)" "Y" false lines with
    | (Except.error err, lines) => (Except.error err, lines)
    | (Except.ok _, lines) => (Except.ok service, lines)

/-- The method `confirmService` of `confirm.go`. On an error the Go method also
hands back the partly confirmed record, which its caller drops. -/
def confirmService (service : EnhancedServiceConfig) (lines : List String) :
    Except String EnhancedServiceConfig × List String :=
  let confirmed := service
  match confirmString "Service name" confirmed.Name true lines with
  | (Except.error err, lines) => (Except.error err, lines)
  | (Except.ok newName, lines) =>
    let confirmed := if newName ≠ "" then { confirmed with Name := newName } else confirmed
    match resolveImage confirmed lines with
    | (Except.error err, lines) => (Except.error err, lines)
    | (Except.ok confirmed, lines) =>
      match confirmPorts confirmed lines with
      | (Except.error err, lines) => (Except.error err, lines)
      | (Except.ok confirmed, lines) => (Except.ok confirmed, lines)

/-- The loop of `ConfirmServices`: `confirmedServices` holds the services
confirmed so far. -/
def confirmLoop : List EnhancedServiceConfig → List EnhancedServiceConfig → List String →
    Except String (List EnhancedServiceConfig) × List String
  | [], confirmedServices, lines => (Except.ok confirmedServices, lines)
  | service :: services, confirmedServices, lines =>
    match confirmService service lines with
    | (Except.error err, lines) =>
      (Except.error ("failed to confirm service " ++ service.Name ++ ": " ++ err), lines)
    | (Except.ok confirmed, lines) =>
      confirmLoop services (confirmedServices ++ [confirmed]) lines

/-- The method `ConfirmServices` of `confirm.go`. -/
def ConfirmServices (services : List EnhancedServiceConfig) (lines : List String) :
    Except String (List EnhancedServiceConfig) × List String :=
  confirmLoop services [] lines

end interactive

/-! ## Auxiliary definitions used in the statements and proofs -/

/-- The binding `KEY=VALUE` an environment item stands for, if any. -/
def envBinding (item : types.Value) : Option (String × String) :=
  match item with
  | types.Value.str e =>
    match strings.cutL '=' e.data with
    | some (a, b) => some (⟨a⟩, ⟨b⟩)
    | none => none
  | _ => none

/-- A response that keeps the value shown: empty, "y" or "yes", in any case and
with surrounding white space ignored. -/
def keepAnswer (line : String) : Prop :=
  strings.TrimSpace line = "" ∨ strings.ToLower (strings.TrimSpace line) = "y" ∨
    strings.ToLower (strings.TrimSpace line) = "yes"

instance (line : String) : Decidable (keepAnswer line) := by
  unfold keepAnswer
  infer_instance

/-- A response that asks for a replacement: "n" or "no", in any case and with
surrounding white space ignored. -/
def negativeAnswer (line : String) : Prop :=
  strings.ToLower (strings.TrimSpace line) = "n" ∨
    strings.ToLower (strings.TrimSpace line) = "no"

instance (line : String) : Decidable (negativeAnswer line) := by
  unfold negativeAnswer
  infer_instance

/-- A step that reads input lines: it maps the unread lines to a value or an
error and the lines left unread. -/
abbrev LineReader (α : Type) := List String → Except String α × List String

/-- Run `F`, hand its error on, and on success run `G` on its value and the lines
left: the shape of every `if err != nil { return err }` sequence of `confirm.go`. -/
def LineReader.andThen {α β : Type} (F : LineReader α) (G : α → LineReader β) :
    LineReader β := fun lines =>
  match F lines with
  | (Except.error err, rest) => (Except.error err, rest)
  | (Except.ok v, rest) => G v rest

/-- Return `v` without reading. -/
def LineReader.done {α : Type} (v : α) : LineReader α := fun lines => (Except.ok v, lines)

/-- Every error of `F` is the failed read, raised with no line left. -/
def FailsAtEnd {α : Type} (F : LineReader α) : Prop :=
  ∀ (lines : List String) (e : String) (rest : List String),
    F lines = (Except.error e, rest) → rest = [] ∧ e = "failed to read user input"

/-- A success of `F` is unchanged by lines appended to the input: these are left
unread. -/
def IgnoresLaterLines {α : Type} (F : LineReader α) : Prop :=
  ∀ (lines : List String) (v : α) (rest more : List String),
    F lines = (Except.ok v, rest) → F (lines ++ more) = (Except.ok v, rest ++ more)

/-- Every input can be extended to one on which `F` succeeds. -/
def SucceedsOnMore {α : Type} (F : LineReader α) : Prop :=
  ∀ lines : List String, ∃ (extra : List String) (v : α) (rest : List String),
    F (lines ++ extra) = (Except.ok v, rest)

/-- The method `promptForInput` run with a bound on its call depth: every call,
the first one and each retry, uses one unit of `fuel`, and `none` means the bound
was reached before a result. -/
def promptForInputFuel (fieldName : String) :
    Nat → String → Bool → List String → Option (Except String String × List String)
  | 0, _, _, _ => none
  | _ + 1, _, _, [] => some (Except.error "failed to read user input", [])
  | fuel + 1, currentValue, required, line :: rest =>
    let input := strings.TrimSpace line
    if currentValue ≠ "" then
      if input = "" ∨ strings.ToLower input = "y" ∨ strings.ToLower input = "yes" then
        some (Except.ok "", rest)
      else if strings.ToLower input = "n" ∨ strings.ToLower input = "no" then
        match rest with
        | [] => some (Except.error "failed to read user input", [])
        | line2 :: rest2 =>
          let input := strings.TrimSpace line2
          if required = true ∧ input = "" then
            promptForInputFuel fieldName fuel "" required rest2
          else some (Except.ok input, rest2)
      else if required = true ∧ input = "" then
        promptForInputFuel fieldName fuel "" required rest
      else some (Except.ok input, rest)
    else if required = true ∧ input = "" then
      promptForInputFuel fieldName fuel "" required rest
    else some (Except.ok input, rest)

/-! ## Lemmas on the string functions -/

theorem containsL_singleton (c : Char) (l : List Char) :
    strings.containsL [c] l = true ↔ c ∈ l := by
  induction l with
  | nil => simp [strings.containsL, List.isPrefixOf]
  | cons a l ih =>
    have hp : List.isPrefixOf [c] (a :: l) = (c == a) := by
      cases l <;> simp [List.isPrefixOf]
    rw [strings.containsL, Bool.or_eq_true, ih, hp, List.mem_cons, beq_iff_eq]

theorem Contains_colon (t : String) : strings.Contains t ":" = true ↔ ':' ∈ t.data :=
  containsL_singleton ':' t.data

theorem Contains_slash (t : String) : strings.Contains t "/" = true ↔ '/' ∈ t.data :=
  containsL_singleton '/' t.data

theorem Contains_backslash (t : String) : strings.Contains t "\\" = true ↔ '\\' ∈ t.data :=
  containsL_singleton '\\' t.data

theorem slash_mem_of_http (t : String) (h : strings.HasPrefix t "http://" = true) :
    '/' ∈ t.data := by
  unfold strings.HasPrefix at h
  have hp : "http://".data = ['h', 't', 't', 'p', ':', '/', '/'] := rfl
  rw [hp] at h
  obtain ⟨r, hr⟩ := List.isPrefixOf_iff_prefix.mp h
  rw [← hr]
  simp

theorem slash_mem_of_https (t : String) (h : strings.HasPrefix t "https://" = true) :
    '/' ∈ t.data := by
  unfold strings.HasPrefix at h
  have hp : "https://".data = ['h', 't', 't', 'p', 's', ':', '/', '/'] := rfl
  rw [hp] at h
  obtain ⟨r, hr⟩ := List.isPrefixOf_iff_prefix.mp h
  rw [← hr]
  simp

theorem HasPrefix_empty_http : strings.HasPrefix "" "http://" = false := by decide

theorem HasPrefix_empty_https : strings.HasPrefix "" "https://" = false := by decide

theorem Contains_empty_colon : strings.Contains "" ":" = false := by decide

/-! ## The source classifier -/

section Classifier

open detector types

/-- C1: the result is invalid exactly when the trimmed input is empty (error
"empty source provided") or begins with `http://` or `https://` without containing
"github.com" (error "URL provided but not a supported GitHub repository"); a
trimmed input with such a scheme that contains "github.com" is a valid
`GitHubRepo`; a valid result has no error, one of the five source types and the
trimmed input as `Source`; an invalid result has the empty source type. -/
theorem DetectSourceType_valid_iff (s : String) :
    ((DetectSourceType s).Valid = false ↔
      (strings.TrimSpace s = "" ∨
        ((strings.HasPrefix (strings.TrimSpace s) "http://" = true ∨
            strings.HasPrefix (strings.TrimSpace s) "https://" = true) ∧
          strings.Contains (strings.TrimSpace s) "github.com" = false))) ∧
    (strings.TrimSpace s = "" → (DetectSourceType s).Error = "empty source provided") ∧
    ((strings.HasPrefix (strings.TrimSpace s) "http://" = true ∨
        strings.HasPrefix (strings.TrimSpace s) "https://" = true) →
      strings.Contains (strings.TrimSpace s) "github.com" = false →
      (DetectSourceType s).Error = "URL provided but not a supported GitHub repository") ∧
    ((strings.HasPrefix (strings.TrimSpace s) "http://" = true ∨
        strings.HasPrefix (strings.TrimSpace s) "https://" = true) →
      strings.Contains (strings.TrimSpace s) "github.com" = true →
      (DetectSourceType s).Valid = true ∧
        (DetectSourceType s).SourceType = SourceGitHubRepo) ∧
    ((DetectSourceType s).Valid = true →
      (DetectSourceType s).Error = "" ∧
      ((DetectSourceType s).SourceType = SourceDockerCompose ∨
        (DetectSourceType s).SourceType = SourceDockerfile ∨
        (DetectSourceType s).SourceType = SourceDockerImage ∨
        (DetectSourceType s).SourceType = SourceLocalDir ∨
        (DetectSourceType s).SourceType = SourceGitHubRepo) ∧
      (DetectSourceType s).Source = strings.TrimSpace s) ∧
    ((DetectSourceType s).Valid = false → (DetectSourceType s).SourceType = "") := by
  unfold DetectSourceType
  simp only []
  split_ifs <;> simp_all [HasPrefix_empty_http, HasPrefix_empty_https]

/-- C2: the source type is `DockerImage` exactly when the trimmed input contains a
colon and neither `/` nor `\`; the rule is applied before the file-name rules
("app:v1.yml" and "dockerfile:1" are `DockerImage`), "nginx:latest" is a valid
`DockerImage`, and "./app:v1/sub" is not `DockerImage`. -/
theorem DetectSourceType_dockerImage_iff :
    (∀ s : String, (DetectSourceType s).SourceType = SourceDockerImage ↔
      (':' ∈ (strings.TrimSpace s).data ∧ '/' ∉ (strings.TrimSpace s).data ∧
        '\\' ∉ (strings.TrimSpace s).data)) ∧
    (DetectSourceType "app:v1.yml").SourceType = SourceDockerImage ∧
    (DetectSourceType "dockerfile:1").SourceType = SourceDockerImage ∧
    DetectSourceType "nginx:latest" =
      { SourceType := SourceDockerImage, Source := "nginx:latest", Valid := true,
        Error := "" } ∧
    (DetectSourceType "./app:v1/sub").SourceType ≠ SourceDockerImage := by
  refine ⟨fun s => ?_, by decide, by decide, by decide, by decide⟩
  have hne1 : SourceGitHubRepo ≠ SourceDockerImage := by decide
  have hne2 : SourceDockerCompose ≠ SourceDockerImage := by decide
  have hne3 : SourceDockerfile ≠ SourceDockerImage := by decide
  have hne4 : SourceLocalDir ≠ SourceDockerImage := by decide
  have hne5 : ("" : String) ≠ SourceDockerImage := by decide
  have hslash1 := slash_mem_of_http (strings.TrimSpace s)
  have hslash2 := slash_mem_of_https (strings.TrimSpace s)
  rw [← Contains_colon, ← Contains_slash, ← Contains_backslash]
  unfold DetectSourceType
  simp only []
  split_ifs with h1 h2 h3 h4 h5 h6
  · simp [h1, hne5, Contains_empty_colon]
  · have : '/' ∈ (strings.TrimSpace s).data := by
      rcases Bool.or_eq_true _ _ ▸ h2 with h | h
      · exact hslash1 h
      · exact hslash2 h
    simp [hne1, (Contains_slash _).mpr this]
  · have : '/' ∈ (strings.TrimSpace s).data := by
      rcases Bool.or_eq_true _ _ ▸ h2 with h | h
      · exact hslash1 h
      · exact hslash2 h
    simp [hne5, (Contains_slash _).mpr this]
  · simp_all
  · simp_all
  · simp_all
  · simp_all

/-- C3: for a non-blank input without an HTTP(S) scheme that the colon rule does
not match, the type is `DockerCompose` exactly when the base name is
"docker-compose.yml" or "docker-compose.yaml" or the lower-cased extension is
".yml" or ".yaml", and it is `Dockerfile` exactly when it is not `DockerCompose`
and the lower-cased base name begins with "dockerfile"; "Dockerfile.yml" and
"DOCKERFILE.YAML" are `DockerCompose`, "Dockerfile.dev" and "dir/DOCKERFILE" are
`Dockerfile`. -/
theorem DetectSourceType_file_rules :
    (∀ s : String, strings.TrimSpace s ≠ "" →
      strings.HasPrefix (strings.TrimSpace s) "http://" = false →
      strings.HasPrefix (strings.TrimSpace s) "https://" = false →
      ¬ (':' ∈ (strings.TrimSpace s).data ∧ '/' ∉ (strings.TrimSpace s).data ∧
          '\\' ∉ (strings.TrimSpace s).data) →
      ((DetectSourceType s).SourceType = SourceDockerCompose ↔
        (filepath.Base (strings.TrimSpace s) = "docker-compose.yml" ∨
          filepath.Base (strings.TrimSpace s) = "docker-compose.yaml" ∨
          strings.ToLower (filepath.Ext (strings.TrimSpace s)) = ".yml" ∨
          strings.ToLower (filepath.Ext (strings.TrimSpace s)) = ".yaml")) ∧
      ((DetectSourceType s).SourceType = SourceDockerfile ↔
        ((DetectSourceType s).SourceType ≠ SourceDockerCompose ∧
          strings.HasPrefix (strings.ToLower (filepath.Base (strings.TrimSpace s)))
            "dockerfile" = true))) ∧
    (DetectSourceType "Dockerfile.yml").SourceType = SourceDockerCompose ∧
    (DetectSourceType "DOCKERFILE.YAML").SourceType = SourceDockerCompose ∧
    (DetectSourceType "Dockerfile.dev").SourceType = SourceDockerfile ∧
    (DetectSourceType "dir/DOCKERFILE").SourceType = SourceDockerfile := by
  refine ⟨fun s h0 h1 h2 h3 => ?_, by decide, by decide, by decide, by decide⟩
  have hne1 : SourceDockerfile ≠ SourceDockerCompose := by decide
  have hne2 : SourceLocalDir ≠ SourceDockerCompose := by decide
  have hne3 : SourceLocalDir ≠ SourceDockerfile := by decide
  have hne4 : SourceDockerCompose ≠ SourceDockerfile := by decide
  rw [← Contains_colon, ← Contains_slash, ← Contains_backslash] at h3
  unfold DetectSourceType
  simp only []
  rw [if_neg h0, h1, h2]
  simp only [Bool.or_self, Bool.false_eq_true, if_false]
  split_ifs with h4 h5 h6
  · exact absurd ⟨by simp_all, by simp_all, by simp_all⟩ h3
  · simp_all [or_assoc]
  · simp_all [or_assoc]
  · simp_all [or_assoc]

/-- At "Dockerfile.dev" the file rules apply and give `Dockerfile`. -/
theorem DetectSourceType_file_rules_witness :
    (DetectSourceType "Dockerfile.dev").SourceType = SourceDockerfile ↔
      ((DetectSourceType "Dockerfile.dev").SourceType ≠ SourceDockerCompose ∧
        strings.HasPrefix (strings.ToLower (filepath.Base (strings.TrimSpace
          "Dockerfile.dev"))) "dockerfile" = true) :=
  (DetectSourceType_file_rules.1 "Dockerfile.dev" (by decide) (by decide) (by decide)
    (by decide)).2

/-- C4 as stated fails: the blank string " " is non-empty and meets every
exclusion but is invalid, and "docker-compose.yml/" meets every exclusion (its
extension is empty) but is `DockerCompose`. -/
theorem DetectSourceType_fallback_counterexample :
    (" " ≠ "" ∧ strings.HasPrefix " " "http://" = false ∧
      strings.HasPrefix " " "https://" = false ∧ ':' ∉ " ".data ∧
      strings.ToLower (filepath.Ext " ") ≠ ".yml" ∧
      strings.ToLower (filepath.Ext " ") ≠ ".yaml" ∧
      strings.HasPrefix (strings.ToLower (filepath.Base " ")) "dockerfile" = false ∧
      (DetectSourceType " ").Valid = false ∧
      (DetectSourceType " ").SourceType ≠ SourceLocalDir) ∧
    ("docker-compose.yml/" ≠ "" ∧
      strings.TrimSpace "docker-compose.yml/" = "docker-compose.yml/" ∧
      strings.HasPrefix "docker-compose.yml/" "http://" = false ∧
      strings.HasPrefix "docker-compose.yml/" "https://" = false ∧
      ':' ∉ "docker-compose.yml/".data ∧
      filepath.Ext "docker-compose.yml/" = "" ∧
      strings.HasPrefix (strings.ToLower (filepath.Base "docker-compose.yml/"))
        "dockerfile" = false ∧
      (DetectSourceType "docker-compose.yml/").SourceType = SourceDockerCompose ∧
      (DetectSourceType "docker-compose.yml/").SourceType ≠ SourceLocalDir) := by
  decide

/-- C4, amended: an input whose trimmed form is non-empty, has no HTTP(S) scheme,
is not matched by the colon rule, has a base name other than "docker-compose.yml"
and "docker-compose.yaml", a lower-cased extension other than ".yml" and ".yaml",
and a lower-cased base name that does not begin with "dockerfile", is a valid
`LocalDirectory` whose `Source` is the trimmed input. -/
theorem DetectSourceType_fallback (s : String)
    (h0 : strings.TrimSpace s ≠ "")
    (h1 : strings.HasPrefix (strings.TrimSpace s) "http://" = false)
    (h2 : strings.HasPrefix (strings.TrimSpace s) "https://" = false)
    (h3 : ¬ (':' ∈ (strings.TrimSpace s).data ∧ '/' ∉ (strings.TrimSpace s).data ∧
          '\\' ∉ (strings.TrimSpace s).data))
    (h4 : filepath.Base (strings.TrimSpace s) ≠ "docker-compose.yml")
    (h5 : filepath.Base (strings.TrimSpace s) ≠ "docker-compose.yaml")
    (h6 : strings.ToLower (filepath.Ext (strings.TrimSpace s)) ≠ ".yml")
    (h7 : strings.ToLower (filepath.Ext (strings.TrimSpace s)) ≠ ".yaml")
    (h8 : strings.HasPrefix (strings.ToLower (filepath.Base (strings.TrimSpace s)))
        "dockerfile" = false) :
    DetectSourceType s =
      { SourceType := SourceLocalDir, Source := strings.TrimSpace s, Valid := true,
        Error := "" } := by
  rw [← Contains_colon, ← Contains_slash, ← Contains_backslash] at h3
  unfold DetectSourceType
  simp only []
  rw [if_neg h0, h1, h2, h8]
  simp only [Bool.or_self, Bool.false_eq_true, if_false]
  split_ifs with h9 h10
  · exact absurd ⟨by simp_all, by simp_all, by simp_all⟩ h3
  · simp_all
  · rfl

/-- The directory "./my-project" falls through to `LocalDirectory`. -/
theorem DetectSourceType_fallback_witness :
    DetectSourceType " ./my-project" =
      { SourceType := SourceLocalDir, Source := "./my-project", Valid := true,
        Error := "" } :=
  DetectSourceType_fallback " ./my-project" (by decide) (by decide) (by decide)
    (by decide) (by decide) (by decide) (by decide) (by decide) (by decide)

end Classifier


/-! ## The compose normaliser -/

section Normaliser

open parser types

theorem splitL_not_mem (sep : Char) (b cur : List Char) (h : sep ∉ b) :
    strings.splitL sep b cur = [cur.reverse ++ b] := by
  induction b generalizing cur with
  | nil => simp [strings.splitL]
  | cons c b ih =>
    have hc : c ≠ sep := fun e => h (by simp [e])
    have hb : sep ∉ b := fun e => h (by simp [e])
    rw [strings.splitL, if_neg hc, ih (c :: cur) hb]
    simp

theorem splitL_append_sep (sep : Char) (a r cur : List Char) (h : sep ∉ a) :
    strings.splitL sep (a ++ sep :: r) cur =
      (cur.reverse ++ a) :: strings.splitL sep r [] := by
  induction a generalizing cur with
  | nil => simp [strings.splitL]
  | cons c a ih =>
    have hc : c ≠ sep := fun e => h (by simp [e])
    have ha : sep ∉ a := fun e => h (by simp [e])
    rw [List.cons_append, strings.splitL, if_neg hc, ih (c :: cur) ha]
    simp

/-- C5: a non-empty `image` is returned verbatim; otherwise a set `build` gives
`{{BUILD_REQUIRED:p}}`, where `p` is the build string, or the string `context` of
a build mapping, or "." for any other build value; otherwise the result is
`{{NO_IMAGE_SPECIFIED}}`. A build mapping with context "./svc" and no image gives
`{{BUILD_REQUIRED:./svc}}`. -/
theorem getInitialImage_cases :
    (∀ service : DockerComposeService, service.Image ≠ "" →
      getInitialImage service = service.Image) ∧
    (∀ (service : DockerComposeService) (p : String), service.Image = "" →
      service.Build = Value.str p →
      getInitialImage service = "\x7b\x7bBUILD_REQUIRED:" ++ p ++ "\x7d\x7d") ∧
    (∀ (service : DockerComposeService) (m : List (String × Value)) (c : String),
      service.Image = "" → service.Build = Value.map m →
      Value.lookup m "context" = some (Value.str c) →
      getInitialImage service = "\x7b\x7bBUILD_REQUIRED:" ++ c ++ "\x7d\x7d") ∧
    (∀ (service : DockerComposeService) (m : List (String × Value)),
      service.Image = "" → service.Build = Value.map m →
      (∀ c : String, Value.lookup m "context" ≠ some (Value.str c)) →
      getInitialImage service = "\x7b\x7bBUILD_REQUIRED:.\x7d\x7d") ∧
    (∀ service : DockerComposeService, service.Image = "" →
      service.Build ≠ Value.null → (∀ p : String, service.Build ≠ Value.str p) →
      (∀ m : List (String × Value), service.Build ≠ Value.map m) →
      getInitialImage service = "\x7b\x7bBUILD_REQUIRED:.\x7d\x7d") ∧
    (∀ service : DockerComposeService, service.Image = "" →
      service.Build = Value.null →
      getInitialImage service = "\x7b\x7bNO_IMAGE_SPECIFIED\x7d\x7d") ∧
    getInitialImage { Build := Value.map [("context", Value.str "./svc")] } =
      "\x7b\x7bBUILD_REQUIRED:./svc\x7d\x7d" := by
  have hdot : "\x7b\x7bBUILD_REQUIRED:" ++ "." ++ "\x7d\x7d" =
      "\x7b\x7bBUILD_REQUIRED:.\x7d\x7d" := by
    decide
  refine ⟨?_, ?_, ?_, ?_, ?_, ?_, by decide⟩
  · intro service h
    simp [getInitialImage, h]
  · intro service p h hb
    simp [getInitialImage, h, hb]
  · intro service m c h hb hc
    simp [getInitialImage, h, hb, hc]
  · intro service m h hb hc
    simp only [getInitialImage, h, hb, ne_eq, not_true_eq_false, if_false]
    exact hdot
  · intro service h h0 h1 h2
    simp only [getInitialImage, h, ne_eq, not_true_eq_false, if_false]
    exact hdot
  · intro service h hb
    simp [getInitialImage, h, hb]

/-- A service with image "redis:7" and a build section keeps the image. -/
theorem getInitialImage_cases_witness :
    getInitialImage { Image := "redis:7", Build := Value.str "./cache" } = "redis:7" :=
  getInitialImage_cases.1 { Image := "redis:7", Build := Value.str "./cache" } (by decide)

theorem cutL_append (sep : Char) (a b : List Char) (h : sep ∉ a) :
    strings.cutL sep (a ++ sep :: b) = some (a, b) := by
  induction a with
  | nil => simp [strings.cutL]
  | cons c a ih =>
    have hc : c ≠ sep := fun e => h (by simp [e])
    have ha : sep ∉ a := fun e => h (by simp [e])
    simp [strings.cutL, hc, ih ha]

theorem cutL_none (sep : Char) (l : List Char) (h : sep ∉ l) : strings.cutL sep l = none := by
  induction l with
  | nil => rfl
  | cons c l ih =>
    have hc : c ≠ sep := fun e => h (by simp [e])
    have hl : sep ∉ l := fun e => h (by simp [e])
    simp [strings.cutL, hc, ih hl]

theorem cutL_ne_none (sep : Char) (l : List Char) (h : sep ∈ l) :
    strings.cutL sep l ≠ none := by
  induction l with
  | nil => simp at h
  | cons c l ih =>
    by_cases hc : c = sep
    · simp [strings.cutL, hc]
    · have hl : sep ∈ l := by
        rcases List.mem_cons.mp h with e | e
        · exact absurd e.symm hc
        · exact e
      simp only [strings.cutL, if_neg hc]
      cases hcut : strings.cutL sep l with
      | none => exact absurd hcut (ih hl)
      | some ab => simp

theorem cutL_some (sep : Char) (l a b : List Char) (h : strings.cutL sep l = some (a, b)) :
    l = a ++ sep :: b ∧ sep ∉ a := by
  induction l generalizing a with
  | nil => simp [strings.cutL] at h
  | cons c l ih =>
    by_cases hc : c = sep
    · simp only [strings.cutL, if_pos hc, Option.some.injEq, Prod.mk.injEq] at h
      obtain ⟨rfl, rfl⟩ := h
      simp [hc]
    · simp only [strings.cutL, if_neg hc] at h
      cases hcut : strings.cutL sep l with
      | none => simp [hcut] at h
      | some ab =>
        obtain ⟨a0, b0⟩ := ab
        simp only [hcut, Option.some.injEq, Prod.mk.injEq] at h
        obtain ⟨rfl, rfl⟩ := h
        obtain ⟨h1, h2⟩ := ih a0 hcut
        refine ⟨by simp [h1], ?_⟩
        simp only [List.mem_cons, not_or]
        exact ⟨fun e => hc e.symm, h2⟩

theorem colon_fields (p : String) (hp : ':' ∈ p.data) :
    ∃ a b rest : String, ':' ∉ a.data ∧ ':' ∉ b.data ∧
      (rest = "" ∨ ∃ r : String, rest = ":" ++ r) ∧ p = a ++ ":" ++ b ++ rest := by
  cases hcut : strings.cutL ':' p.data with
  | none => exact absurd hcut (cutL_ne_none _ _ hp)
  | some ar =>
    obtain ⟨a, r⟩ := ar
    obtain ⟨h1, h2⟩ := cutL_some _ _ _ _ hcut
    cases hcut2 : strings.cutL ':' r with
    | none =>
      have hr : ':' ∉ r := fun h => cutL_ne_none _ _ h hcut2
      refine ⟨⟨a⟩, ⟨r⟩, "", h2, hr, Or.inl rfl, ?_⟩
      apply String.ext
      simp [String.data_append, h1]
    | some bt =>
      obtain ⟨b, t⟩ := bt
      obtain ⟨h3, h4⟩ := cutL_some _ _ _ _ hcut2
      refine ⟨⟨a⟩, ⟨b⟩, ":" ++ ⟨t⟩, h2, h4, Or.inr ⟨⟨t⟩, rfl⟩, ?_⟩
      apply String.ext
      simp [String.data_append, h1, h3]

theorem Split_two_fields (a b rest : String) (ha : ':' ∉ a.data) (hb : ':' ∉ b.data)
    (hr : rest = "" ∨ ∃ r : String, rest = ":" ++ r) :
    ∃ more : List String, strings.Split (a ++ ":" ++ b ++ rest) ':' = a :: b :: more := by
  have hd : (a ++ ":" ++ b ++ rest).data = a.data ++ ':' :: (b.data ++ rest.data) := by
    simp [String.data_append]
  unfold strings.Split
  rw [hd, splitL_append_sep ':' _ _ [] ha]
  rcases hr with hr | ⟨r, hr⟩
  · refine ⟨[], ?_⟩
    subst hr
    have : b.data ++ "".data = b.data := by simp
    rw [this, splitL_not_mem ':' _ [] hb]
    rfl
  · refine ⟨(strings.splitL ':' r.data []).map String.mk, ?_⟩
    subst hr
    have : b.data ++ (":" ++ r).data = b.data ++ ':' :: r.data := by
      simp [String.data_append]
    rw [this, splitL_append_sep ':' _ _ [] hb]
    rfl

/-- C6 as stated fails: "8080:80:90" does yield an entry, host 8080 and container
80, although the text after its first colon, "80:90", is not an integer. -/
theorem parsePortString_second_colon_counterexample :
    parsePortString "8080:80:90" =
      some { Host := 8080, Container := 80, Protocol := "tcp" } ∧
    parsePortString "8080:80:90" ≠ none ∧
    strconv.Atoi "80:90" = none := by
  decide

/-- C6, amended: a string with a colon is split at every colon and its first two
fields, `a` before the first colon and `b` up to the second colon or the end, are
parsed as base-10 integers, giving host `a`, container `b`, protocol "tcp" when
both parse and no entry otherwise, whatever follows a second colon (every string
with a colon has such fields); a string without a colon is parsed as one integer `n` giving host `n`, container `n`,
protocol "tcp", or no entry. "8080:80" and "8080:80:90" give {8080, 80, tcp},
"abc" gives no entry. -/
theorem parsePortString_fields :
    (∀ a b rest : String, ':' ∉ a.data → ':' ∉ b.data →
      (rest = "" ∨ ∃ r : String, rest = ":" ++ r) →
      parsePortString (a ++ ":" ++ b ++ rest) =
        (strconv.Atoi a).bind fun host => (strconv.Atoi b).map fun container =>
          { Host := host, Container := container, Protocol := "tcp" }) ∧
    (∀ p : String, ':' ∈ p.data →
      ∃ a b rest : String, ':' ∉ a.data ∧ ':' ∉ b.data ∧
        (rest = "" ∨ ∃ r : String, rest = ":" ++ r) ∧ p = a ++ ":" ++ b ++ rest) ∧
    (∀ p : String, ':' ∉ p.data →
      parsePortString p =
        (strconv.Atoi p).map fun port =>
          { Host := port, Container := port, Protocol := "tcp" }) ∧
    parsePortString "8080:80" =
      some { Host := 8080, Container := 80, Protocol := "tcp" } ∧
    parsePortString "8080:80:90" =
      some { Host := 8080, Container := 80, Protocol := "tcp" } ∧
    parsePortString "abc" = none := by
  refine ⟨?_, colon_fields, ?_, by decide, by decide, by decide⟩
  · intro a b rest ha hb hr
    obtain ⟨more, hs⟩ := Split_two_fields a b rest ha hb hr
    have hc : strings.Contains (a ++ ":" ++ b ++ rest) ":" = true := by
      rw [Contains_colon]
      simp [String.data_append]
    unfold parsePortString
    rw [if_pos hc, hs]
    dsimp only
    cases strconv.Atoi a <;> cases strconv.Atoi b <;> rfl
  · intro p hp
    have hc : ¬ strings.Contains p ":" = true := by
      rw [Contains_colon]
      exact hp
    unfold parsePortString
    rw [if_neg hc]
    cases strconv.Atoi p <;> rfl

/-- The string "127:8080:80" has fields "127" and "8080" and a further colon. -/
theorem parsePortString_fields_witness :
    parsePortString ("127" ++ ":" ++ "8080" ++ ":80") =
      (strconv.Atoi "127").bind fun host => (strconv.Atoi "8080").map fun container =>
        { Host := host, Container := container, Protocol := "tcp" } :=
  parsePortString_fields.1 "127" "8080" ":80" (by decide) (by decide)
    (Or.inr ⟨"80", by decide⟩)

/-- C7: a port mapping yields an entry exactly when its "target" and "published"
values are both integers and both strictly positive; the entry has container =
target, host = published, and the "protocol" value as protocol when that is a
string, "tcp" otherwise. A missing, string-valued or non-positive target or
published gives no entry. -/
theorem parsePortObject_some_iff :
    (∀ (portObj : List (String × Value)) (m : PortMapping),
      parsePortObject portObj = some m ↔
        ∃ target published : Int,
          Value.lookup portObj "target" = some (Value.int target) ∧
          Value.lookup portObj "published" = some (Value.int published) ∧
          0 < target ∧ 0 < published ∧
          m = { Host := published, Container := target,
                Protocol := match Value.lookup portObj "protocol" with
                  | some (Value.str protocol) => protocol
                  | _ => "tcp" }) ∧
    parsePortObject [("published", Value.int 8080)] = none ∧
    parsePortObject [("target", Value.int 80)] = none ∧
    parsePortObject [("target", Value.int 80), ("published", Value.str "8080")] = none ∧
    parsePortObject [("target", Value.int 0), ("published", Value.int 8080)] = none ∧
    parsePortObject [("target", Value.int 80), ("published", Value.int (-1))] = none ∧
    parsePortObject [("target", Value.int 80), ("published", Value.int 8080),
        ("protocol", Value.str "udp")] =
      some { Host := 8080, Container := 80, Protocol := "udp" } := by
  refine ⟨?_, by decide, by decide, by decide, by decide, by decide, by decide⟩
  intro portObj m
  unfold parsePortObject
  generalize Value.lookup portObj "target" = t
  generalize Value.lookup portObj "published" = pu
  generalize Value.lookup portObj "protocol" = pr
  have key : ∀ (c h : Int) (q : String),
      ((if c > 0 ∧ h > 0 then some ({ Host := h, Container := c, Protocol := q } : PortMapping)
          else none) = some m) ↔
        (0 < c ∧ 0 < h ∧ m = { Host := h, Container := c, Protocol := q }) := by
    intro c h q
    by_cases hc : c > 0 ∧ h > 0
    · rw [if_pos hc]
      constructor
      · intro e
        exact ⟨hc.1, hc.2, (Option.some.inj e).symm⟩
      · rintro ⟨_, _, e⟩
        rw [e]
    · rw [if_neg hc]
      constructor
      · intro e
        exact absurd e (by simp)
      · rintro ⟨h1, h2, _⟩
        exact absurd ⟨h1, h2⟩ hc
  rcases t with _ | (_ | _ | t | _ | _ | _ | _) <;>
    rcases pu with _ | (_ | _ | pu | _ | _ | _ | _) <;>
    rcases pr with _ | (_ | _ | _ | pr | _ | _ | _) <;>
    simp [key]

theorem StringMap_get_set (m : StringMap) (k v key : String) :
    StringMap.get (StringMap.set m k v) key =
      if k = key then some v else StringMap.get m key := by
  induction m with
  | nil => simp [StringMap.set, StringMap.get]
  | cons e m ih =>
    obtain ⟨k0, v0⟩ := e
    by_cases h0 : k0 = k
    · subst h0
      by_cases h1 : k0 = key <;> simp [StringMap.set, StringMap.get, h1]
    · by_cases h1 : k0 = key
      · subst h1
        have h2 : ¬ k = k0 := fun e => h0 e.symm
        simp [StringMap.set, StringMap.get, h0, h2]
      · simp [StringMap.set, StringMap.get, h0, h1, ih]

theorem envBinding_eq_some (item : Value) (k v : String) :
    envBinding item = some (k, v) ↔ (item = Value.str (k ++ "=" ++ v) ∧ '=' ∉ k.data) := by
  have hd : (k ++ "=" ++ v).data = k.data ++ '=' :: v.data := by simp [String.data_append]
  constructor
  · intro h
    cases item with
    | str e =>
      simp only [envBinding] at h
      cases hcut : strings.cutL '=' e.data with
      | none => simp [hcut] at h
      | some ab =>
        obtain ⟨a, b⟩ := ab
        simp only [hcut, Option.some.injEq, Prod.mk.injEq] at h
        obtain ⟨rfl, rfl⟩ := h
        obtain ⟨h1, h2⟩ := cutL_some _ _ _ _ hcut
        refine ⟨?_, h2⟩
        congr 1
        apply String.ext
        rw [hd]
        exact h1
    | _ => simp [envBinding] at h
  · rintro ⟨rfl, hk⟩
    simp only [envBinding, hd, cutL_append _ _ _ hk]

theorem parseEnvironmentStep_eq (result : StringMap) (item : Value) :
    parseEnvironmentStep result item =
      match envBinding item with
      | some kv => StringMap.set result kv.1 kv.2
      | none => result := by
  cases item with
  | str e =>
    simp only [parseEnvironmentStep, envBinding, strings.SplitN2]
    by_cases hc : '=' ∈ e.data
    · have hC : strings.Contains e "=" = true := (containsL_singleton '=' e.data).mpr hc
      rw [if_pos hC]
      cases hcut : strings.cutL '=' e.data with
      | none => exact absurd hcut (cutL_ne_none _ _ hc)
      | some ab => rfl
    · have hC : ¬ strings.Contains e "=" = true := fun h =>
        hc ((containsL_singleton '=' e.data).mp h)
      rw [if_neg hC, cutL_none _ _ hc]
  | _ => rfl

theorem foldl_parseEnvironmentStep_get (items : List Value) (init : StringMap)
    (k v : String) :
    StringMap.get (items.foldl parseEnvironmentStep init) k = some v ↔
      ((∃ (pre post : List Value) (x : Value), items = pre ++ x :: post ∧
          envBinding x = some (k, v) ∧ ∀ y ∈ post, ∀ w : String, envBinding y ≠ some (k, w)) ∨
        ((∀ y ∈ items, ∀ w : String, envBinding y ≠ some (k, w)) ∧
          StringMap.get init k = some v)) := by
  induction items generalizing init with
  | nil => simp
  | cons x rest ih =>
    rw [List.foldl_cons, ih, parseEnvironmentStep_eq]
    constructor
    · rintro (⟨pre, post, y, he, hy, hpost⟩ | ⟨hno, hget⟩)
      · exact Or.inl ⟨x :: pre, post, y, by simp [he], hy, hpost⟩
      · cases hx : envBinding x with
        | none =>
          rw [hx] at hget
          refine Or.inr ⟨?_, hget⟩
          intro y hy w
          rcases List.mem_cons.mp hy with e | e
          · rw [e, hx]
            simp
          · exact hno y e w
        | some kv =>
          obtain ⟨k0, v0⟩ := kv
          rw [hx] at hget
          simp only [StringMap_get_set] at hget
          by_cases hk : k0 = k
          · rw [if_pos hk] at hget
            have hv : v0 = v := Option.some.inj hget
            refine Or.inl ⟨[], rest, x, by simp, ?_, hno⟩
            rw [hx, hk, hv]
          · rw [if_neg hk] at hget
            refine Or.inr ⟨?_, hget⟩
            intro y hy w
            rcases List.mem_cons.mp hy with e | e
            · rw [e, hx]
              intro hc
              exact hk (by simpa using congrArg (fun o => o.map Prod.fst) hc)
            · exact hno y e w
    · rintro (⟨pre, post, y, he, hy, hpost⟩ | ⟨hno, hget⟩)
      · cases pre with
        | nil =>
          simp only [List.nil_append, List.cons.injEq] at he
          obtain ⟨rfl, rfl⟩ := he
          refine Or.inr ⟨hpost, ?_⟩
          rw [hy]
          simp [StringMap_get_set]
        | cons p pre =>
          simp only [List.cons_append, List.cons.injEq] at he
          obtain ⟨rfl, rfl⟩ := he
          exact Or.inl ⟨pre, post, y, rfl, hy, hpost⟩
      · refine Or.inr ⟨fun y hy w => hno y (List.mem_cons_of_mem _ hy) w, ?_⟩
        cases hx : envBinding x with
        | none => exact hget
        | some kv =>
          obtain ⟨k0, v0⟩ := kv
          simp only [StringMap_get_set]
          have hk : ¬ k0 = k := by
            intro e
            exact hno x (List.mem_cons_self _ _) v0 (by rw [hx, e])
          rw [if_neg hk]
          exact hget

/-- C8: for a sequence, key `k` maps to `v` exactly when the sequence holds a
string item `k=v` (`k` without `=`, so split at its first `=`) that no later item
with the same key follows; "A=1=2" maps A to "1=2", a later duplicate overwrites
an earlier one, strings without `=` and non-string items contribute nothing, and
["A=1","B=2","NOEQUALS"] gives {A:"1", B:"2"}. -/
theorem parseEnvironment_seq (sprint : Value → String) :
    (∀ (items : List Value) (k v : String),
      StringMap.get (parseEnvironment sprint (Value.seq items)) k = some v ↔
        ('=' ∉ k.data ∧ ∃ pre post : List Value,
          items = pre ++ Value.str (k ++ "=" ++ v) :: post ∧
          ∀ w : String, Value.str (k ++ "=" ++ w) ∉ post)) ∧
    parseEnvironment sprint (Value.seq [Value.str "A=1=2"]) = [("A", "1=2")] ∧
    parseEnvironment sprint (Value.seq [Value.str "A=1", Value.str "A=2"]) =
      [("A", "2")] ∧
    parseEnvironment sprint (Value.seq [Value.str "NOEQUALS", Value.int 7]) = [] ∧
    parseEnvironment sprint
        (Value.seq [Value.str "A=1", Value.str "B=2", Value.str "NOEQUALS"]) =
      [("A", "1"), ("B", "2")] := by
  refine ⟨?_, by rfl, by rfl, by rfl, by rfl⟩
  intro items k v
  show StringMap.get (items.foldl parseEnvironmentStep []) k = some v ↔ _
  rw [foldl_parseEnvironmentStep_get]
  constructor
  · rintro (⟨pre, post, x, he, hx, hpost⟩ | ⟨_, hget⟩)
    · obtain ⟨rfl, hk⟩ := (envBinding_eq_some x k v).mp hx
      refine ⟨hk, pre, post, he, ?_⟩
      intro w hw
      exact hpost _ hw w ((envBinding_eq_some _ k w).mpr ⟨rfl, hk⟩)
    · simp [StringMap.get] at hget
  · rintro ⟨hk, pre, post, he, hpost⟩
    refine Or.inl ⟨pre, post, _, he, (envBinding_eq_some _ k v).mpr ⟨rfl, hk⟩, ?_⟩
    intro y hy w hyw
    obtain ⟨rfl, _⟩ := (envBinding_eq_some y k w).mp hyw
    exact hpost w hy

theorem foldl_parseDependenciesStep (items : List Value) (init : List String) :
    items.foldl parseDependenciesStep init =
      init ++ items.filterMap (fun d => match d with
        | Value.str depStr => some depStr
        | _ => none) := by
  induction items generalizing init with
  | nil => simp
  | cons x rest ih =>
    rw [List.foldl_cons, ih]
    cases x <;> simp [parseDependenciesStep]

theorem foldl_append_keys (m : List (String × Value)) (init : List String) :
    m.foldl (fun result kv => result ++ [kv.1]) init = init ++ m.map Prod.fst := by
  induction m generalizing init with
  | nil => simp
  | cons x rest ih =>
    rw [List.foldl_cons, ih]
    simp

/-- C9: for a sequence the result is its string elements in their order, other
elements dropped and repeats kept; for a mapping it is the keys, each key of the
mapping exactly once and nothing else, whatever the values; for any other shape,
an absent value included, it is empty. -/
theorem parseDependencies_shapes :
    (∀ items : List Value,
      parseDependencies (Value.seq items) =
        items.filterMap (fun d => match d with
          | Value.str depStr => some depStr
          | _ => none)) ∧
    (∀ m : List (String × Value), (m.map Prod.fst).Nodup →
      ∀ name : String, (parseDependencies (Value.map m)).count name =
        if name ∈ m.map Prod.fst then 1 else 0) ∧
    (∀ d : Value, (∀ items : List Value, d ≠ Value.seq items) →
      (∀ m : List (String × Value), d ≠ Value.map m) → parseDependencies d = []) ∧
    parseDependencies Value.null = [] ∧
    parseDependencies
        (Value.seq [Value.str "db", Value.int 3, Value.str "cache", Value.str "db"]) =
      ["db", "cache", "db"] ∧
    parseDependencies
        (Value.map [("db", Value.map [("condition", Value.str "service_healthy")]),
          ("cache", Value.null)]) =
      ["db", "cache"] := by
  refine ⟨?_, ?_, ?_, by rfl, by rfl, by rfl⟩
  · intro items
    show items.foldl parseDependenciesStep [] = _
    rw [foldl_parseDependenciesStep]
    simp
  · intro m hm name
    show (m.foldl (fun result kv => result ++ [kv.1]) []).count name = _
    rw [foldl_append_keys, List.nil_append]
    exact List.count_eq_of_nodup hm
  · intro d h1 h2
    cases d with
    | seq items => exact absurd rfl (h1 items)
    | map m => exact absurd rfl (h2 m)
    | _ => rfl

/-- A two-key mapping lists "db" once. -/
theorem parseDependencies_shapes_witness :
    (parseDependencies (Value.map [("db", Value.null), ("cache", Value.null)])).count "db" =
      if "db" ∈ [("db", Value.null), ("cache", Value.null)].map Prod.fst then 1 else 0 :=
  parseDependencies_shapes.2.1 [("db", Value.null), ("cache", Value.null)] (by decide) "db"

theorem foldl_parsePortsStep_int (ns : List Int) (acc : List PortMapping) :
    (ns.map Value.int).foldl parsePortsStep acc =
      acc ++ ns.map (fun n => ({ Host := n, Container := n, Protocol := "tcp" } : PortMapping)) := by
  induction ns generalizing acc with
  | nil => simp
  | cons n ns ih =>
    rw [List.map_cons, List.foldl_cons, ih]
    simp [parsePortsStep]

/-- C17: the code does not keep this promise. A port mapping with target 80,
published 8080 and protocol "sctp" gives an entry whose protocol is "sctp",
neither "tcp" nor "udp": `parsePortObject` copies any string protocol. -/
theorem parsePorts_protocol_unchecked :
    parsePorts [Value.map [("target", Value.int 80), ("published", Value.int 8080),
        ("protocol", Value.str "sctp")]] =
      [{ Host := 8080, Container := 80, Protocol := "sctp" }] ∧
    ¬ ∀ m ∈ parsePorts [Value.map [("target", Value.int 80), ("published", Value.int 8080),
        ("protocol", Value.str "sctp")]], m.Protocol = "tcp" ∨ m.Protocol = "udp" := by
  decide

/-- C18: a ports sequence of bare integers `n1..nk` gives exactly the `k`
entries {host: ni, container: ni, protocol: "tcp"} in the same order; none is
dropped, zero and negative values included. -/
theorem parsePorts_bare_integers :
    (∀ ns : List Int,
      parsePorts (ns.map Value.int) =
        ns.map (fun n => ({ Host := n, Container := n, Protocol := "tcp" } : PortMapping))) ∧
    (∀ ns : List Int, (parsePorts (ns.map Value.int)).length = ns.length) ∧
    parsePorts [Value.int 80] = [{ Host := 80, Container := 80, Protocol := "tcp" }] ∧
    parsePorts [Value.int 0, Value.int (-5), Value.int 443] =
      [{ Host := 0, Container := 0, Protocol := "tcp" },
       { Host := -5, Container := -5, Protocol := "tcp" },
       { Host := 443, Container := 443, Protocol := "tcp" }] ∧
    parsePortObject [("target", Value.int 0), ("published", Value.int 0)] = none := by
  have h : ∀ ns : List Int,
      parsePorts (ns.map Value.int) =
        ns.map (fun n => ({ Host := n, Container := n, Protocol := "tcp" } : PortMapping)) := by
    intro ns
    unfold parsePorts
    rw [foldl_parsePortsStep_int, List.nil_append]
  refine ⟨h, ?_, by decide, by decide, by decide⟩
  intro ns
  rw [h, List.length_map]

end Normaliser

/-! ## The interactive confirmation -/

section Confirmation

open interactive types

theorem promptForInput_ok_aux (f : String) (n : Nat) :
    ∀ lines : List String, lines.length ≤ n →
      ∀ (cur : String) (req : Bool) (v : String) (rest : List String),
        promptForInput f cur req lines = (Except.ok v, rest) →
        (v = "" ∨ ∃ l ∈ lines, v = strings.TrimSpace l) ∧ rest <:+ lines := by
  induction n with
  | zero =>
    intro lines hlen cur req v rest h
    have : lines = [] := List.length_eq_zero.mp (Nat.le_zero.mp hlen)
    subst this
    simp [promptForInput] at h
  | succ n ih =>
    intro lines hlen cur req v rest h
    rcases lines with _ | ⟨line, _ | ⟨line2, rest2⟩⟩
    · simp [promptForInput] at h
    · simp only [promptForInput] at h
      split_ifs at h <;>
        simp only [Prod.mk.injEq, Except.ok.injEq, reduceCtorEq, false_and] at h <;>
        (obtain ⟨rfl, rfl⟩ := h
         exact ⟨by simp, List.suffix_cons _ _⟩)
    · have ih1 := ih (line2 :: rest2) (by simpa using hlen)
      have ih2 := ih rest2 (by simp at hlen; omega)
      have s1 : (line2 :: rest2) <:+ (line :: line2 :: rest2) := List.suffix_cons _ _
      have s2 : rest2 <:+ (line :: line2 :: rest2) :=
        (List.suffix_cons _ _).trans s1
      simp only [promptForInput] at h
      split_ifs at h <;>
        first
        | (simp only [Prod.mk.injEq, Except.ok.injEq] at h
           obtain ⟨rfl, rfl⟩ := h
           first
           | exact ⟨by simp, s1⟩
           | exact ⟨by simp, s2⟩)
        | (obtain ⟨hv, hs⟩ := ih1 _ _ _ _ h
           refine ⟨?_, hs.trans s1⟩
           rcases hv with hv | ⟨l, hl, hv⟩
           · exact Or.inl hv
           · exact Or.inr ⟨l, List.mem_cons_of_mem _ hl, hv⟩)
        | (obtain ⟨hv, hs⟩ := ih2 _ _ _ _ h
           refine ⟨?_, hs.trans s2⟩
           rcases hv with hv | ⟨l, hl, hv⟩
           · exact Or.inl hv
           · exact Or.inr ⟨l, List.mem_cons_of_mem _ (List.mem_cons_of_mem _ hl), hv⟩)

theorem promptForInput_ok (f cur : String) (req : Bool) (lines : List String)
    (v : String) (rest : List String)
    (h : promptForInput f cur req lines = (Except.ok v, rest)) :
    (v = "" ∨ ∃ l ∈ lines, v = strings.TrimSpace l) ∧ rest <:+ lines :=
  promptForInput_ok_aux f lines.length lines (Nat.le_refl _) cur req v rest h

theorem resolveImage_ok (s t : EnhancedServiceConfig) (lines rest : List String)
    (h : resolveImage s lines = (Except.ok t, rest)) :
    rest <:+ lines ∧ t.Name = s.Name ∧
      ((t.ResolvedImage = s.ResolvedImage ∧
          strings.HasPrefix s.ResolvedImage "\x7b\x7bBUILD_REQUIRED:" = false) ∨
        t.ResolvedImage = "" ∨
        (∃ l ∈ lines, t.ResolvedImage = strings.TrimSpace l) ∨
        t.ResolvedImage = s.Name ++ ":latest") := by
  unfold resolveImage confirmString at h
  split_ifs at h with hb
  · split at h
    · simp at h
    · rename_i choice l1 hp
      obtain ⟨_, hs1⟩ := promptForInput_ok _ _ _ _ _ _ hp
      split_ifs at h with h1 h2 h3
      iterate 3
        · split at h
          · simp at h
          · rename_i img l2 hq
            obtain ⟨hv, hs2⟩ := promptForInput_ok _ _ _ _ _ _ hq
            simp only [Prod.mk.injEq, Except.ok.injEq] at h
            obtain ⟨rfl, rfl⟩ := h
            refine ⟨hs2.trans hs1, rfl, ?_⟩
            rcases hv with hv | ⟨l, hl, hv⟩
            · exact Or.inr (Or.inl hv)
            · exact Or.inr (Or.inr (Or.inl ⟨l, hs1.subset hl, hv⟩))
      · simp only [Prod.mk.injEq, Except.ok.injEq] at h
        obtain ⟨rfl, rfl⟩ := h
        exact ⟨hs1, rfl, Or.inr (Or.inr (Or.inr rfl))⟩
  · split at h
    · simp at h
    · rename_i img l1 hp
      obtain ⟨hv, hs1⟩ := promptForInput_ok _ _ _ _ _ _ hp
      have hb' : strings.HasPrefix s.ResolvedImage "\x7b\x7bBUILD_REQUIRED:" = false := by
        simpa using hb
      split_ifs at h with h1
      · simp only [Prod.mk.injEq, Except.ok.injEq] at h
        obtain ⟨rfl, rfl⟩ := h
        refine ⟨hs1, rfl, ?_⟩
        rcases hv with hv | ⟨l, hl, hv⟩
        · exact absurd hv h1
        · exact Or.inr (Or.inr (Or.inl ⟨l, hl, hv⟩))
      · simp only [Prod.mk.injEq, Except.ok.injEq] at h
        obtain ⟨rfl, rfl⟩ := h
        exact ⟨hs1, rfl, Or.inl ⟨rfl, hb'⟩⟩

theorem confirmPorts_ok (s t : EnhancedServiceConfig) (lines rest : List String)
    (h : confirmPorts s lines = (Except.ok t, rest)) : t = s ∧ rest <:+ lines := by
  unfold confirmPorts at h
  split_ifs at h with h0
  · simp only [Prod.mk.injEq, Except.ok.injEq] at h
    obtain ⟨rfl, rfl⟩ := h
    exact ⟨rfl, List.suffix_refl _⟩
  · split at h
    · simp at h
    · rename_i v l1 hp
      obtain ⟨_, hs1⟩ := promptForInput_ok _ _ _ _ _ _ hp
      simp only [Prod.mk.injEq, Except.ok.injEq] at h
      obtain ⟨rfl, rfl⟩ := h
      exact ⟨rfl, hs1⟩

theorem confirmService_ok (s t : EnhancedServiceConfig) (lines rest : List String)
    (h : confirmService s lines = (Except.ok t, rest)) :
    rest <:+ lines ∧ (t.Name = s.Name ∨ ∃ l ∈ lines, t.Name = strings.TrimSpace l) ∧
      ((t.ResolvedImage = s.ResolvedImage ∧
          strings.HasPrefix s.ResolvedImage "\x7b\x7bBUILD_REQUIRED:" = false) ∨
        t.ResolvedImage = "" ∨
        (∃ l ∈ lines, t.ResolvedImage = strings.TrimSpace l) ∨
        t.ResolvedImage = t.Name ++ ":latest") := by
  unfold confirmService confirmString at h
  simp only at h
  split at h
  · simp at h
  · rename_i newName l1 hp
    obtain ⟨hv, hs1⟩ := promptForInput_ok _ _ _ _ _ _ hp
    split at h
    · simp at h
    · rename_i c2 l2 hr
      obtain ⟨hs2, hn2, hi2⟩ := resolveImage_ok _ _ _ _ hr
      split at h
      · simp at h
      · rename_i c3 l3 hc
        obtain ⟨rfl, hs3⟩ := confirmPorts_ok _ _ _ _ hc
        simp only [Prod.mk.injEq, Except.ok.injEq] at h
        obtain ⟨rfl, rfl⟩ := h
        refine ⟨hs3.trans (hs2.trans hs1), ?_, ?_⟩
        · rw [hn2]
          split_ifs with hne
          · rcases hv with hv | ⟨l, hl, hv⟩
            · exact absurd hv hne
            · exact Or.inr ⟨l, hl, hv⟩
          · exact Or.inl rfl
        · rcases hi2 with ⟨h1, h2⟩ | h1 | ⟨l, hl, h1⟩ | h1
          · refine Or.inl ⟨?_, ?_⟩
            · rw [h1]
              split_ifs <;> rfl
            · rw [← h2]
              split_ifs <;> rfl
          · exact Or.inr (Or.inl h1)
          · exact Or.inr (Or.inr (Or.inl ⟨l, hs1.subset hl, h1⟩))
          · exact Or.inr (Or.inr (Or.inr (by rw [h1, hn2])))

theorem confirmLoop_mem (services : List EnhancedServiceConfig) :
    ∀ (acc : List EnhancedServiceConfig) (lines : List String)
      (out : List EnhancedServiceConfig) (rest : List String),
      confirmLoop services acc lines = (Except.ok out, rest) →
      ∀ o ∈ out, o ∈ acc ∨ ∃ s ∈ services, ∃ l1 l2 : List String,
        l1 <:+ lines ∧ confirmService s l1 = (Except.ok o, l2) := by
  induction services with
  | nil =>
    intro acc lines out rest h o ho
    simp only [confirmLoop, Prod.mk.injEq, Except.ok.injEq] at h
    obtain ⟨rfl, rfl⟩ := h
    exact Or.inl ho
  | cons s ss ih =>
    intro acc lines out rest h o ho
    simp only [confirmLoop] at h
    split at h
    · simp at h
    · rename_i c l1 hc
      obtain ⟨hs1, _, _⟩ := confirmService_ok _ _ _ _ hc
      rcases ih _ _ _ _ h o ho with hm | ⟨s0, hs0, k1, k2, hk, hconf⟩
      · rcases List.mem_append.mp hm with hm | hm
        · exact Or.inl hm
        · have : o = c := by simpa using hm
          subst this
          exact Or.inr ⟨s, List.mem_cons_self _ _, lines, l1, List.suffix_refl _, hc⟩
      · exact Or.inr ⟨s0, List.mem_cons_of_mem _ hs0, k1, k2, hk.trans hs1, hconf⟩

theorem HasPrefix_marker_colon (x : String)
    (h : strings.HasPrefix x "\x7b\x7bBUILD_REQUIRED" = false) :
    strings.HasPrefix x "\x7b\x7bBUILD_REQUIRED:" = false := by
  cases hc : strings.HasPrefix x "\x7b\x7bBUILD_REQUIRED:" with
  | false => rfl
  | true =>
    have h17 : "\x7b\x7bBUILD_REQUIRED:".data <+: x.data := List.isPrefixOf_iff_prefix.mp hc
    have h16 : "\x7b\x7bBUILD_REQUIRED".data <+: "\x7b\x7bBUILD_REQUIRED:".data :=
      ⟨[':'], by decide⟩
    have : strings.HasPrefix x "\x7b\x7bBUILD_REQUIRED" = true :=
      List.isPrefixOf_iff_prefix.mpr (h16.trans h17)
    rw [h] at this
    exact absurd this (by decide)

theorem HasPrefix_marker_latest (n : String)
    (h : strings.HasPrefix n "\x7b\x7bBUILD_REQUIRED" = false) :
    strings.HasPrefix (n ++ ":latest") "\x7b\x7bBUILD_REQUIRED:" = false := by
  cases hc : strings.HasPrefix (n ++ ":latest") "\x7b\x7bBUILD_REQUIRED:" with
  | false => rfl
  | true =>
    exfalso
    have hn : ¬ "\x7b\x7bBUILD_REQUIRED".data <+: n.data := by
      intro hp
      have : strings.HasPrefix n "\x7b\x7bBUILD_REQUIRED" = true :=
        List.isPrefixOf_iff_prefix.mpr hp
      rw [h] at this
      exact absurd this (by decide)
    have hd : (n ++ ":latest").data = n.data ++ ":latest".data := by
      simp [String.data_append]
    have h17 : "\x7b\x7bBUILD_REQUIRED".data ++ [':'] <+: n.data ++ ":latest".data := by
      have := List.isPrefixOf_iff_prefix.mp hc
      rw [hd] at this
      exact this
    have h16 : "\x7b\x7bBUILD_REQUIRED".data <+: n.data ++ ":latest".data :=
      (List.prefix_append _ _).trans h17
    rcases List.prefix_or_prefix_of_prefix h16 (List.prefix_append n.data _) with hp | hp
    · exact hn hp
    · obtain ⟨r, hr⟩ := hp
      rw [← hr, List.append_assoc, List.prefix_append_right_inj] at h17
      cases r with
      | nil =>
        apply hn
        rw [← hr]
        simp
      | cons c r =>
        have hcol : c = ':' := by
          have h17' : c :: (r ++ [':']) <+: ':' :: "latest".data := h17
          exact (List.cons_prefix_cons.mp h17').1
        have hmem : c ∈ "\x7b\x7bBUILD_REQUIRED".data := by
          rw [← hr]
          simp
        rw [hcol] at hmem
        exact absurd hmem (by decide)

/-- C10 as stated fails. A service without image and build carries
`{{NO_IMAGE_SPECIFIED}}`, and two empty lines confirm it with that marker kept;
with a build marker, choice "1" followed by a typed marker returns that marker;
and an unrecognised choice for a service named `{{BUILD_REQUIRED` returns
`{{BUILD_REQUIRED:latest`. -/
theorem ConfirmServices_sentinel_counterexample :
    parser.getInitialImage {} = "\x7b\x7bNO_IMAGE_SPECIFIED\x7d\x7d" ∧
    ConfirmServices
        [{ Name := "web", ResolvedImage := "\x7b\x7bNO_IMAGE_SPECIFIED\x7d\x7d" }] ["", ""] =
      (Except.ok [{ Name := "web", ResolvedImage := "\x7b\x7bNO_IMAGE_SPECIFIED\x7d\x7d" }],
        []) ∧
    ConfirmServices
        [{ Name := "web", ResolvedImage := "\x7b\x7bBUILD_REQUIRED:./svc\x7d\x7d" }]
        ["", "1", "\x7b\x7bBUILD_REQUIRED:./svc\x7d\x7d"] =
      (Except.ok [{ Name := "web", ResolvedImage := "\x7b\x7bBUILD_REQUIRED:./svc\x7d\x7d" }],
        []) ∧
    strings.HasPrefix "\x7b\x7bBUILD_REQUIRED:./svc\x7d\x7d" "\x7b\x7bBUILD_REQUIRED:" = true ∧
    ConfirmServices
        [{ Name := "\x7b\x7bBUILD_REQUIRED",
           ResolvedImage := "\x7b\x7bBUILD_REQUIRED:./svc\x7d\x7d" }] ["", "x"] =
      (Except.ok [{ Name := "\x7b\x7bBUILD_REQUIRED",
                    ResolvedImage := "\x7b\x7bBUILD_REQUIRED:latest" }], []) ∧
    strings.HasPrefix "\x7b\x7bBUILD_REQUIRED:latest" "\x7b\x7bBUILD_REQUIRED:" = true :=
  ⟨by decide, by rfl, by rfl, by decide, by rfl, by decide⟩

theorem append_latest_ne_noImage (n : String) :
    n ++ ":latest" ≠ "\x7b\x7bNO_IMAGE_SPECIFIED\x7d\x7d" := by
  intro h
  have hd : (n ++ ":latest").data = n.data ++ [':', 'l', 'a', 't', 'e', 's', 't'] := by
    simp [String.data_append]
  have h1 := congrArg (fun x : String => x.data.reverse.head?) h
  have hm : "\x7b\x7bNO_IMAGE_SPECIFIED\x7d\x7d".data.reverse.head? = some '}' := by decide
  simp only [hd, List.reverse_append, hm] at h1
  exact absurd h1 (by simp)

/-! ### One step of the prompt -/

theorem promptForInput_nil (f cur : String) (req : Bool) :
    promptForInput f cur req [] = (Except.error "failed to read user input", []) := by
  simp [promptForInput]

theorem promptForInput_keep (f cur : String) (req : Bool) (line : String)
    (rest : List String) (hc : cur ≠ "") (hk : keepAnswer line) :
    promptForInput f cur req (line :: rest) = (Except.ok "", rest) := by
  unfold keepAnswer at hk
  rcases rest with _ | ⟨line2, rest2⟩ <;>
    (simp only [promptForInput]
     rw [if_pos hc, if_pos hk])

theorem negativeAnswer_not_keep (line : String) (hn : negativeAnswer line) :
    ¬ keepAnswer line := by
  unfold negativeAnswer at hn
  unfold keepAnswer
  rintro (h | h | h)
  · rw [h] at hn
    exact absurd hn (by decide)
  · rw [h] at hn
    exact absurd hn (by decide)
  · rw [h] at hn
    exact absurd hn (by decide)

theorem promptForInput_negative_nil (f cur : String) (req : Bool) (line : String)
    (hc : cur ≠ "") (hn : negativeAnswer line) :
    promptForInput f cur req [line] = (Except.error "failed to read user input", []) := by
  have hk := negativeAnswer_not_keep line hn
  unfold keepAnswer at hk
  unfold negativeAnswer at hn
  simp only [promptForInput]
  rw [if_pos hc, if_neg hk, if_pos hn]

theorem promptForInput_negative (f cur : String) (req : Bool) (line line2 : String)
    (rest : List String) (hc : cur ≠ "") (hn : negativeAnswer line) :
    promptForInput f cur req (line :: line2 :: rest) =
      if req = true ∧ strings.TrimSpace line2 = "" then promptForInput f "" req rest
      else (Except.ok (strings.TrimSpace line2), rest) := by
  have hk := negativeAnswer_not_keep line hn
  unfold keepAnswer at hk
  unfold negativeAnswer at hn
  simp only [promptForInput]
  rw [if_pos hc, if_neg hk, if_pos hn]

theorem promptForInput_text (f cur : String) (req : Bool) (line : String)
    (rest : List String) (hc : cur ≠ "") (hk : ¬ keepAnswer line)
    (hn : ¬ negativeAnswer line) :
    promptForInput f cur req (line :: rest) = (Except.ok (strings.TrimSpace line), rest) := by
  have he : ¬ (req = true ∧ strings.TrimSpace line = "") := fun h => hk (Or.inl h.2)
  unfold keepAnswer at hk
  unfold negativeAnswer at hn
  rcases rest with _ | ⟨line2, rest2⟩ <;>
    (simp only [promptForInput]
     rw [if_pos hc, if_neg hk, if_neg hn, if_neg he])

theorem promptForInput_free (f : String) (req : Bool) (line : String) (rest : List String) :
    promptForInput f "" req (line :: rest) =
      if req = true ∧ strings.TrimSpace line = "" then promptForInput f "" req rest
      else (Except.ok (strings.TrimSpace line), rest) := by
  rcases rest with _ | ⟨line2, rest2⟩ <;>
    (simp only [promptForInput]
     rw [if_neg (by simp)])

/-- Induction along the calls of `promptForInput`. -/
theorem promptForInput_induction (req : Bool) (motive : String → List String → Prop)
    (hnil : ∀ cur : String, motive cur [])
    (hkeep : ∀ (cur line : String) (rest : List String), cur ≠ "" → keepAnswer line →
      motive cur (line :: rest))
    (hnegnil : ∀ cur line : String, cur ≠ "" → negativeAnswer line → motive cur [line])
    (hneg : ∀ (cur line line2 : String) (rest : List String), cur ≠ "" →
      negativeAnswer line →
      (req = true ∧ strings.TrimSpace line2 = "" → motive "" rest) →
      motive cur (line :: line2 :: rest))
    (htext : ∀ (cur line : String) (rest : List String), cur ≠ "" → ¬ keepAnswer line →
      ¬ negativeAnswer line → motive cur (line :: rest))
    (hfree : ∀ (line : String) (rest : List String),
      (req = true ∧ strings.TrimSpace line = "" → motive "" rest) →
      motive "" (line :: rest)) :
    ∀ (cur : String) (lines : List String), motive cur lines := by
  have key : ∀ (n : Nat) (lines : List String), lines.length ≤ n →
      ∀ cur : String, motive cur lines := by
    intro n
    induction n with
    | zero =>
      intro lines hlen cur
      have : lines = [] := List.length_eq_zero.mp (Nat.le_zero.mp hlen)
      subst this
      exact hnil cur
    | succ n ih =>
      intro lines hlen cur
      rcases lines with _ | ⟨line, rest⟩
      · exact hnil cur
      · have hr : rest.length ≤ n := by simpa using hlen
        by_cases hc : cur = ""
        · subst hc
          exact hfree line rest (fun _ => ih rest hr "")
        · by_cases hk : keepAnswer line
          · exact hkeep cur line rest hc hk
          · by_cases hn : negativeAnswer line
            · rcases rest with _ | ⟨line2, rest2⟩
              · exact hnegnil cur line hc hn
              · exact hneg cur line line2 rest2 hc hn
                  (fun _ => ih rest2 (by simp at hr; omega) "")
            · exact htext cur line rest hc hk hn
  intro cur lines
  exact key lines.length lines (Nat.le_refl _) cur

theorem promptForInput_error (f : String) (req : Bool) :
    ∀ (cur : String) (lines : List String) (e : String) (rest : List String),
      promptForInput f cur req lines = (Except.error e, rest) →
      rest = [] ∧ e = "failed to read user input" := by
  intro cur lines
  induction cur, lines using promptForInput_induction req with
  | hnil cur =>
    intro e rest h
    rw [promptForInput_nil] at h
    simp only [Prod.mk.injEq, Except.error.injEq] at h
    exact ⟨h.2.symm, h.1.symm⟩
  | hkeep cur line rest hc hk =>
    intro e r h
    rw [promptForInput_keep f cur req line rest hc hk] at h
    simp at h
  | hnegnil cur line hc hn =>
    intro e r h
    rw [promptForInput_negative_nil f cur req line hc hn] at h
    simp only [Prod.mk.injEq, Except.error.injEq] at h
    exact ⟨h.2.symm, h.1.symm⟩
  | hneg cur line line2 rest hc hn ih =>
    intro e r h
    rw [promptForInput_negative f cur req line line2 rest hc hn] at h
    split_ifs at h with h1
    · exact ih h1 e r h
    · simp at h
  | htext cur line rest hc hk hn =>
    intro e r h
    rw [promptForInput_text f cur req line rest hc hk hn] at h
    simp at h
  | hfree line rest ih =>
    intro e r h
    rw [promptForInput_free] at h
    split_ifs at h with h1
    · exact ih h1 e r h
    · simp at h

theorem promptForInput_free_ne_empty (f : String) :
    ∀ (lines : List String) (v : String) (rest : List String),
      promptForInput f "" true lines = (Except.ok v, rest) → v ≠ "" := by
  intro lines
  induction lines with
  | nil =>
    intro v rest h
    rw [promptForInput_nil] at h
    simp at h
  | cons line lines ih =>
    intro v rest h
    rw [promptForInput_free] at h
    split_ifs at h with h1
    · exact ih v rest h
    · simp only [Prod.mk.injEq, Except.ok.injEq] at h
      rw [← h.1]
      intro he
      exact h1 ⟨rfl, he⟩

theorem promptForInput_required_ne_empty (f cur : String) (line : String)
    (lines : List String) (v : String) (rest : List String) (hk : ¬ keepAnswer line)
    (h : promptForInput f cur true (line :: lines) = (Except.ok v, rest)) : v ≠ "" := by
  by_cases hc : cur = ""
  · subst hc
    exact promptForInput_free_ne_empty f _ v rest h
  · by_cases hn : negativeAnswer line
    · rcases lines with _ | ⟨line2, rest2⟩
      · rw [promptForInput_negative_nil f cur true line hc hn] at h
        simp at h
      · rw [promptForInput_negative f cur true line line2 rest2 hc hn] at h
        split_ifs at h with h1
        · exact promptForInput_free_ne_empty f _ v rest h
        · simp only [Prod.mk.injEq, Except.ok.injEq] at h
          rw [← h.1]
          intro he
          exact h1 ⟨rfl, he⟩
    · rw [promptForInput_text f cur true line lines hc hk hn] at h
      simp only [Prod.mk.injEq, Except.ok.injEq] at h
      rw [← h.1]
      intro he
      exact hk (Or.inl he)

theorem promptForInput_append (f : String) (req : Bool) (more : List String) :
    ∀ (cur : String) (lines : List String) (v : String) (rest : List String),
      promptForInput f cur req lines = (Except.ok v, rest) →
      promptForInput f cur req (lines ++ more) = (Except.ok v, rest ++ more) := by
  intro cur lines
  induction cur, lines using promptForInput_induction req with
  | hnil cur =>
    intro v rest h
    rw [promptForInput_nil] at h
    simp at h
  | hkeep cur line rest hc hk =>
    intro v r h
    rw [promptForInput_keep f cur req line rest hc hk] at h
    simp only [Prod.mk.injEq, Except.ok.injEq] at h
    rw [List.cons_append, promptForInput_keep f cur req line _ hc hk, ← h.1, ← h.2]
  | hnegnil cur line hc hn =>
    intro v r h
    rw [promptForInput_negative_nil f cur req line hc hn] at h
    simp at h
  | hneg cur line line2 rest hc hn ih =>
    intro v r h
    rw [promptForInput_negative f cur req line line2 rest hc hn] at h
    rw [List.cons_append, List.cons_append,
      promptForInput_negative f cur req line line2 _ hc hn]
    split_ifs at h ⊢ with h1
    · exact ih h1 v r h
    · simp only [Prod.mk.injEq, Except.ok.injEq] at h
      rw [← h.1, ← h.2]
  | htext cur line rest hc hk hn =>
    intro v r h
    rw [promptForInput_text f cur req line rest hc hk hn] at h
    simp only [Prod.mk.injEq, Except.ok.injEq] at h
    rw [List.cons_append, promptForInput_text f cur req line _ hc hk hn, ← h.1, ← h.2]
  | hfree line rest ih =>
    intro v r h
    rw [promptForInput_free] at h
    rw [List.cons_append, promptForInput_free]
    split_ifs at h ⊢ with h1
    · exact ih h1 v r h
    · simp only [Prod.mk.injEq, Except.ok.injEq] at h
      rw [← h.1, ← h.2]

/-! ### The steps of one confirmation -/

theorem confirmService_ok_iff (s t : EnhancedServiceConfig) (lines rest : List String) :
    confirmService s lines = (Except.ok t, rest) ↔
      ∃ (newName : String) (l1 : List String) (c : EnhancedServiceConfig) (l2 : List String),
        promptForInput "Service name" s.Name true lines = (Except.ok newName, l1) ∧
        resolveImage (if newName ≠ "" then { s with Name := newName } else s) l1 =
          (Except.ok c, l2) ∧
        confirmPorts c l2 = (Except.ok t, rest) := by
  constructor
  · intro h
    unfold confirmService confirmString at h
    simp only at h
    split at h
    · simp at h
    · rename_i newName l1 hp
      split at h
      · simp at h
      · rename_i c l2 hr
        split at h
        · simp at h
        · rename_i c3 l3 hc
          simp only [Prod.mk.injEq, Except.ok.injEq] at h
          obtain ⟨rfl, rfl⟩ := h
          exact ⟨newName, l1, c, l2, hp, hr, hc⟩
  · rintro ⟨newName, l1, c, l2, hp, hr, hc⟩
    unfold confirmService confirmString
    simp only [hp, hr, hc]

theorem confirmPorts_ok_iff (s t : EnhancedServiceConfig) (lines rest : List String) :
    confirmPorts s lines = (Except.ok t, rest) ↔
      t = s ∧ ((s.ResolvedPorts = [] ∧ rest = lines) ∨
        (s.ResolvedPorts ≠ [] ∧ ∃ v : String,
          promptForInput "Keep these port mappings? (Y/n)" "Y" false lines =
            (Except.ok v, rest))) := by
  unfold confirmPorts
  by_cases h0 : s.ResolvedPorts = []
  · have hl : s.ResolvedPorts.length = 0 := by rw [h0]; rfl
    rw [if_pos hl]
    simp only [Prod.mk.injEq, Except.ok.injEq, h0, true_and, ne_eq, not_true_eq_false,
      false_and, or_false]
    constructor
    · rintro ⟨h1, h2⟩
      exact ⟨h1.symm, h2.symm⟩
    · rintro ⟨h1, h2⟩
      exact ⟨h1.symm, h2.symm⟩
  · have hl : ¬ s.ResolvedPorts.length = 0 := fun h => h0 (List.length_eq_zero.mp h)
    rw [if_neg hl]
    simp only [h0, false_and, ne_eq, not_false_eq_true, true_and, false_or]
    constructor
    · intro h
      split at h
      · simp at h
      · rename_i v l1 hp
        simp only [Prod.mk.injEq, Except.ok.injEq] at h
        obtain ⟨rfl, rfl⟩ := h
        exact ⟨rfl, v, hp⟩
    · rintro ⟨rfl, v, hp⟩
      simp only [hp]

theorem resolveImage_build_ok_iff (s t : EnhancedServiceConfig) (lines rest : List String)
    (hb : strings.HasPrefix s.ResolvedImage "\x7b\x7bBUILD_REQUIRED:" = true) :
    resolveImage s lines = (Except.ok t, rest) ↔
      ∃ (choice : String) (l1 : List String),
        promptForInput "Choice [1-3]" "1" true lines = (Except.ok choice, l1) ∧
        ((choice = "1" ∧ ∃ img : String,
            promptForInput "Enter image name (e.g., my-app:latest)" "" true l1 =
              (Except.ok img, rest) ∧ t = { s with ResolvedImage := img }) ∨
          (choice = "2" ∧ ∃ img : String,
            promptForInput "Enter image name to build (e.g., my-app:latest)"
              (s.Name ++ ":latest") true l1 = (Except.ok img, rest) ∧
            t = { s with ResolvedImage := img }) ∨
          (choice = "3" ∧ ∃ img : String,
            promptForInput "Enter final image name (e.g., registry.com/my-app:latest)"
              "" true l1 = (Except.ok img, rest) ∧ t = { s with ResolvedImage := img }) ∨
          (choice ≠ "1" ∧ choice ≠ "2" ∧ choice ≠ "3" ∧ rest = l1 ∧
            t = { s with ResolvedImage := s.Name ++ ":latest" })) := by
  have h12 : ("1" : String) ≠ "2" := by decide
  have h13 : ("1" : String) ≠ "3" := by decide
  have h23 : ("2" : String) ≠ "3" := by decide
  constructor
  · intro h
    unfold resolveImage at h
    rw [if_pos hb] at h
    split at h
    · simp at h
    · rename_i choice l1 hp
      refine ⟨choice, l1, hp, ?_⟩
      split_ifs at h with h1 h2 h3
      · left
        split at h
        · simp at h
        · rename_i img l2 hq
          simp only [Prod.mk.injEq, Except.ok.injEq] at h
          obtain ⟨rfl, rfl⟩ := h
          exact ⟨h1, img, hq, rfl⟩
      · right; left
        split at h
        · simp at h
        · rename_i img l2 hq
          simp only [Prod.mk.injEq, Except.ok.injEq] at h
          obtain ⟨rfl, rfl⟩ := h
          exact ⟨h2, img, hq, rfl⟩
      · right; right; left
        split at h
        · simp at h
        · rename_i img l2 hq
          simp only [Prod.mk.injEq, Except.ok.injEq] at h
          obtain ⟨rfl, rfl⟩ := h
          exact ⟨h3, img, hq, rfl⟩
      · right; right; right
        simp only [Prod.mk.injEq, Except.ok.injEq] at h
        obtain ⟨rfl, rfl⟩ := h
        exact ⟨h1, h2, h3, rfl, rfl⟩
  · rintro ⟨choice, l1, hp, hcase⟩
    unfold resolveImage
    rw [if_pos hb]
    simp only [hp]
    rcases hcase with ⟨rfl, img, hq, rfl⟩ | ⟨rfl, img, hq, rfl⟩ | ⟨rfl, img, hq, rfl⟩ |
      ⟨h1, h2, h3, rfl, rfl⟩
    · simp only [if_true, hq]
    · simp only [h12.symm, if_false, if_true, hq]
    · simp only [h13.symm, h23.symm, if_false, if_true, hq]
    · simp only [h1, h2, h3, if_false]

theorem resolveImage_frame (s t : EnhancedServiceConfig) (lines rest : List String)
    (h : resolveImage s lines = (Except.ok t, rest)) :
    t = { s with ResolvedImage := t.ResolvedImage } := by
  unfold resolveImage confirmString at h
  split_ifs at h with hb
  · split at h
    · simp at h
    · split_ifs at h with h1 h2 h3
      iterate 3
        · split at h
          · simp at h
          · simp only [Prod.mk.injEq, Except.ok.injEq] at h
            rw [← h.1]
      · simp only [Prod.mk.injEq, Except.ok.injEq] at h
        rw [← h.1]
  · split at h
    · simp at h
    · split_ifs at h with h1
      · simp only [Prod.mk.injEq, Except.ok.injEq] at h
        rw [← h.1]
      · simp only [Prod.mk.injEq, Except.ok.injEq] at h
        rw [← h.1]

theorem confirmService_only_name_image (s t : EnhancedServiceConfig) (lines rest : List String)
    (h : confirmService s lines = (Except.ok t, rest)) :
    t = { s with Name := t.Name, ResolvedImage := t.ResolvedImage } := by
  obtain ⟨newName, l1, c, l2, _, hr, hc⟩ := (confirmService_ok_iff s t lines rest).mp h
  obtain ⟨rfl, _⟩ := (confirmPorts_ok_iff c t l2 rest).mp hc
  have hf := resolveImage_frame _ _ _ _ hr
  rw [hf]
  split_ifs <;> rfl

/-- C13: a successful confirmation changes nothing but the name and the image:
the confirmed ports, environment, dependencies and original document are those of
the input service, whatever the answer to the port question; the port step
returns the service as it is, and reads no line when there are no ports. -/
theorem confirmService_frame :
    (∀ (s t : EnhancedServiceConfig) (lines rest : List String),
      confirmService s lines = (Except.ok t, rest) →
      t.ResolvedPorts = s.ResolvedPorts ∧ t.Environment = s.Environment ∧
        t.Dependencies = s.Dependencies ∧ t.OriginalService = s.OriginalService ∧
        t = { s with Name := t.Name, ResolvedImage := t.ResolvedImage }) ∧
    (∀ (s t : EnhancedServiceConfig) (lines rest : List String),
      confirmPorts s lines = (Except.ok t, rest) → t = s) ∧
    (∀ (s : EnhancedServiceConfig) (lines : List String), s.ResolvedPorts = [] →
      confirmPorts s lines = (Except.ok s, lines)) ∧
    confirmService
        { Name := "web", ResolvedImage := "nginx",
          ResolvedPorts := [{ Host := 8080, Container := 80, Protocol := "tcp" }] }
        ["", "", "no", "9090"] =
      (Except.ok
        { Name := "web", ResolvedImage := "nginx",
          ResolvedPorts := [{ Host := 8080, Container := 80, Protocol := "tcp" }] }, []) ∧
    confirmService
        { Name := "web", ResolvedImage := "nginx",
          ResolvedPorts := [{ Host := 8080, Container := 80, Protocol := "tcp" }] }
        ["", "", "drop them"] =
      (Except.ok
        { Name := "web", ResolvedImage := "nginx",
          ResolvedPorts := [{ Host := 8080, Container := 80, Protocol := "tcp" }] }, []) := by
  refine ⟨?_, ?_, ?_, by rfl, by rfl⟩
  · intro s t lines rest h
    have hf := confirmService_only_name_image s t lines rest h
    refine ⟨?_, ?_, ?_, ?_, hf⟩ <;> rw [hf]
  · intro s t lines rest h
    exact ((confirmPorts_ok_iff s t lines rest).mp h).1
  · intro s lines h0
    exact (confirmPorts_ok_iff s s lines lines).mpr ⟨rfl, Or.inl ⟨h0, rfl⟩⟩

/-- The service "db" with one port, confirmed with three empty lines, keeps its
port. -/
theorem confirmService_frame_witness :
    ({ Name := "db", ResolvedImage := "postgres:16",
        ResolvedPorts := [{ Host := 5432, Container := 5432, Protocol := "tcp" }] } :
      EnhancedServiceConfig).ResolvedPorts =
      [{ Host := 5432, Container := 5432, Protocol := "tcp" }] :=
  (confirmService_frame.1
    { Name := "db", ResolvedImage := "postgres:16",
      ResolvedPorts := [{ Host := 5432, Container := 5432, Protocol := "tcp" }] }
    { Name := "db", ResolvedImage := "postgres:16",
      ResolvedPorts := [{ Host := 5432, Container := 5432, Protocol := "tcp" }] }
    ["", "", ""] [] (by rfl)).1

theorem promptForInput_required_empty (f cur : String) (lines : List String)
    (rest : List String) (h : promptForInput f cur true lines = (Except.ok "", rest)) :
    cur ≠ "" := by
  intro hc
  subst hc
  exact promptForInput_free_ne_empty f lines "" rest h rfl

/-- C15: a confirmed name is never empty, also when the detected name is empty; a
blank line given as the name, or as the replacement after a negative answer, is
not accepted and the prompt is asked again; and when the detected name is not
empty, an empty, "y" or "yes" answer leaves it unchanged. -/
theorem confirmService_name_required :
    (∀ (s t : EnhancedServiceConfig) (lines rest : List String),
      confirmService s lines = (Except.ok t, rest) → t.Name ≠ "") ∧
    (∀ (f line : String) (rest : List String), strings.TrimSpace line = "" →
      promptForInput f "" true (line :: rest) = promptForInput f "" true rest) ∧
    (∀ (f cur line line2 : String) (rest : List String), cur ≠ "" → negativeAnswer line →
      strings.TrimSpace line2 = "" →
      promptForInput f cur true (line :: line2 :: rest) = promptForInput f "" true rest) ∧
    (∀ (s t : EnhancedServiceConfig) (line : String) (lines rest : List String),
      s.Name ≠ "" → keepAnswer line →
      confirmService s (line :: lines) = (Except.ok t, rest) → t.Name = s.Name) ∧
    confirmService { Name := "", ResolvedImage := "nginx" } ["  ", "", "web", ""] =
      (Except.ok { Name := "web", ResolvedImage := "nginx" }, []) ∧
    confirmService { Name := "web", ResolvedImage := "nginx" } ["no", " ", "api", ""] =
      (Except.ok { Name := "api", ResolvedImage := "nginx" }, []) ∧
    confirmService { Name := "web", ResolvedImage := "nginx" } [" YES ", ""] =
      (Except.ok { Name := "web", ResolvedImage := "nginx" }, []) := by
  refine ⟨?_, ?_, ?_, ?_, by rfl, by rfl, by rfl⟩
  · intro s t lines rest h
    obtain ⟨newName, l1, c, l2, hp, hr, hc⟩ := (confirmService_ok_iff s t lines rest).mp h
    obtain ⟨rfl, _⟩ := (confirmPorts_ok_iff c t l2 rest).mp hc
    obtain ⟨_, hn, _⟩ := resolveImage_ok _ _ _ _ hr
    rw [hn]
    by_cases hne : newName = ""
    · subst hne
      have := promptForInput_required_empty _ _ _ _ hp
      simp [this]
    · simp [hne]
  · intro f line rest hl
    rw [promptForInput_free, if_pos ⟨rfl, hl⟩]
  · intro f cur line line2 rest hc hn hl
    rw [promptForInput_negative f cur true line line2 rest hc hn, if_pos ⟨rfl, hl⟩]
  · intro s t line lines rest hs hk h
    obtain ⟨newName, l1, c, l2, hp, hr, hc⟩ := (confirmService_ok_iff s t _ rest).mp h
    obtain ⟨rfl, _⟩ := (confirmPorts_ok_iff c t l2 rest).mp hc
    obtain ⟨_, hn, _⟩ := resolveImage_ok _ _ _ _ hr
    rw [promptForInput_keep _ s.Name true line lines hs hk] at hp
    simp only [Prod.mk.injEq, Except.ok.injEq] at hp
    rw [hn, ← hp.1]
    simp

/-- The service "web", confirmed with three empty lines, keeps a non-empty name. -/
theorem confirmService_name_required_witness :
    ({ Name := "web", ResolvedImage := "nginx" } : EnhancedServiceConfig).Name ≠ "" :=
  confirmService_name_required.1 { Name := "web", ResolvedImage := "nginx" }
    { Name := "web", ResolvedImage := "nginx" } ["", "", ""] [""] (by rfl)

/-- C19: for a service with a build marker, when the choice prompt returns a
value other than "1", "2" and "3", the image step reads no further line and sets
the image to the name followed by ":latest"; within a confirmation the name is the
one that stands after the name step, the typed one if the operator replaced it. -/
theorem resolveImage_unrecognized_choice :
    (∀ (s : EnhancedServiceConfig) (lines : List String) (c : String) (l1 : List String),
      strings.HasPrefix s.ResolvedImage "\x7b\x7bBUILD_REQUIRED:" = true →
      promptForInput "Choice [1-3]" "1" true lines = (Except.ok c, l1) →
      c ≠ "1" → c ≠ "2" → c ≠ "3" →
      resolveImage s lines =
        (Except.ok { s with ResolvedImage := s.Name ++ ":latest" }, l1)) ∧
    (∀ (s t : EnhancedServiceConfig) (lines rest : List String) (newName : String)
      (l0 : List String) (c : String) (l1 : List String),
      strings.HasPrefix s.ResolvedImage "\x7b\x7bBUILD_REQUIRED:" = true →
      promptForInput "Service name" s.Name true lines = (Except.ok newName, l0) →
      promptForInput "Choice [1-3]" "1" true l0 = (Except.ok c, l1) →
      c ≠ "1" → c ≠ "2" → c ≠ "3" →
      confirmService s lines = (Except.ok t, rest) →
      t.Name = (if newName ≠ "" then newName else s.Name) ∧
        t.ResolvedImage = t.Name ++ ":latest") ∧
    confirmService { Name := "web", ResolvedImage := "\x7b\x7bBUILD_REQUIRED:./svc\x7d\x7d" }
        ["n", "api", "7"] =
      (Except.ok { Name := "api", ResolvedImage := "api:latest" }, []) ∧
    confirmService { Name := "web", ResolvedImage := "\x7b\x7bBUILD_REQUIRED:./svc\x7d\x7d" }
        ["", "later", "unread"] =
      (Except.ok { Name := "web", ResolvedImage := "web:latest" }, ["unread"]) := by
  have first : ∀ (s : EnhancedServiceConfig) (lines : List String) (c : String)
      (l1 : List String),
      strings.HasPrefix s.ResolvedImage "\x7b\x7bBUILD_REQUIRED:" = true →
      promptForInput "Choice [1-3]" "1" true lines = (Except.ok c, l1) →
      c ≠ "1" → c ≠ "2" → c ≠ "3" →
      resolveImage s lines =
        (Except.ok { s with ResolvedImage := s.Name ++ ":latest" }, l1) := by
    intro s lines c l1 hb hp h1 h2 h3
    exact (resolveImage_build_ok_iff s _ lines l1 hb).mpr
      ⟨c, l1, hp, Or.inr (Or.inr (Or.inr ⟨h1, h2, h3, rfl, rfl⟩))⟩
  refine ⟨first, ?_, by rfl, by rfl⟩
  intro s t lines rest newName l0 c l1 hb hp hq h1 h2 h3 h
  obtain ⟨newName', l0', c', l2, hp', hr, hc⟩ := (confirmService_ok_iff s t lines rest).mp h
  rw [hp] at hp'
  simp only [Prod.mk.injEq, Except.ok.injEq] at hp'
  obtain ⟨rfl, rfl⟩ := hp'
  obtain ⟨rfl, _⟩ := (confirmPorts_ok_iff c' t l2 rest).mp hc
  have hb' : strings.HasPrefix
      (if newName ≠ "" then { s with Name := newName } else s).ResolvedImage
      "\x7b\x7bBUILD_REQUIRED:" = true := by
    split_ifs <;> exact hb
  rw [first _ l0 c l1 hb' hq h1 h2 h3] at hr
  simp only [Prod.mk.injEq, Except.ok.injEq] at hr
  rw [← hr.1]
  constructor
  · split_ifs <;> rfl
  · rfl

/-- The service "web" with a build marker and the choice "7". -/
theorem resolveImage_unrecognized_choice_witness :
    resolveImage { Name := "web", ResolvedImage := "\x7b\x7bBUILD_REQUIRED:./svc\x7d\x7d" }
        ["7", "unread"] =
      (Except.ok { Name := "web", ResolvedImage := "web" ++ ":latest" }, ["unread"]) :=
  resolveImage_unrecognized_choice.1
    { Name := "web", ResolvedImage := "\x7b\x7bBUILD_REQUIRED:./svc\x7d\x7d" }
    ["7", "unread"] "7" ["unread"] (by decide) (by rfl) (by decide) (by decide) (by decide)

/-- C20 as stated fails. After a negative answer and an empty replacement the
prompt is asked again without a current value: "y" on the retry is returned as
the replacement text, not as the keep signal "", and an empty line on the retry
does not keep the value either but leads to one more retry. -/
theorem promptForInput_retry_counterexample :
    promptForInput "Service name" "web" true ["n", "", "y"] = (Except.ok "y", []) ∧
    promptForInput "Service name" "web" true ["n", "", "y"] ≠ (Except.ok "", []) ∧
    promptForInput "Service name" "web" true ["no", "", "yes"] = (Except.ok "yes", []) ∧
    promptForInput "Service name" "web" true ["n", "", "", "api"] = (Except.ok "api", []) ∧
    promptForInput "Service name" "web" true ["n", "", ""] =
      (Except.error "failed to read user input", []) := by
  refine ⟨by rfl, ?_, by rfl, by rfl, by rfl⟩
  have h : promptForInput "Service name" "web" true ["n", "", "y"] = (Except.ok "y", []) := by
    rfl
  rw [h]
  intro hc
  simp only [Prod.mk.injEq, Except.ok.injEq, and_true] at hc
  exact absurd hc (by decide)

/-- C20, amended: for a required prompt with a non-empty current value, after a
negative answer and an empty replacement line the prompt is asked again with the
same label and flag but with no current value; on that retry a non-empty line,
"y" and "yes" included, is returned trimmed as the replacement text, and an empty
line leads to a further retry. -/
theorem promptForInput_retry :
    (∀ (f cur line line2 : String) (rest : List String), cur ≠ "" → negativeAnswer line →
      strings.TrimSpace line2 = "" →
      promptForInput f cur true (line :: line2 :: rest) = promptForInput f "" true rest) ∧
    (∀ (f line : String) (rest : List String), strings.TrimSpace line ≠ "" →
      promptForInput f "" true (line :: rest) = (Except.ok (strings.TrimSpace line), rest)) ∧
    (∀ (f line : String) (rest : List String), strings.TrimSpace line = "" →
      promptForInput f "" true (line :: rest) = promptForInput f "" true rest) ∧
    (∀ (f cur line line2 line3 : String) (rest : List String), cur ≠ "" →
      negativeAnswer line → strings.TrimSpace line2 = "" → strings.TrimSpace line3 ≠ "" →
      promptForInput f cur true (line :: line2 :: line3 :: rest) =
        (Except.ok (strings.TrimSpace line3), rest)) := by
  have h2 : ∀ (f line : String) (rest : List String), strings.TrimSpace line ≠ "" →
      promptForInput f "" true (line :: rest) =
        (Except.ok (strings.TrimSpace line), rest) := by
    intro f line rest hl
    rw [promptForInput_free, if_neg (fun h => hl h.2)]
  refine ⟨?_, h2, ?_, ?_⟩
  · intro f cur line line2 rest hc hn hl
    rw [promptForInput_negative f cur true line line2 rest hc hn, if_pos ⟨rfl, hl⟩]
  · intro f line rest hl
    rw [promptForInput_free, if_pos ⟨rfl, hl⟩]
  · intro f cur line line2 line3 rest hc hn hl hl3
    rw [promptForInput_negative f cur true line line2 _ hc hn, if_pos ⟨rfl, hl⟩]
    exact h2 f line3 rest hl3

/-- The prompt for "web" answered "n", an empty line and "y". -/
theorem promptForInput_retry_witness :
    promptForInput "Service name" "web" true ("n" :: "" :: "y" :: []) =
      (Except.ok (strings.TrimSpace "y"), []) :=
  promptForInput_retry.2.2.2 "Service name" "web" "n" "" "y" [] (by decide) (by decide)
    (by decide) (by decide)

theorem keepAnswer_empty : keepAnswer "" := by decide

theorem promptForInput_choice_one (lines : List String) :
    promptForInput "Choice [1-3]" "1" true ("1" :: lines) = (Except.ok "1", lines) := by
  have h := promptForInput_text "Choice [1-3]" "1" true "1" lines (by decide) (by decide)
    (by decide)
  have ht : strings.TrimSpace "1" = "1" := by decide
  rw [ht] at h
  exact h

theorem resolveImage_choice_one (s : EnhancedServiceConfig) (m : String)
    (rest : List String)
    (hb : strings.HasPrefix s.ResolvedImage "\x7b\x7bBUILD_REQUIRED:" = true)
    (hm : m ≠ "") (ht : strings.TrimSpace m = m) :
    resolveImage s ("1" :: m :: rest) = (Except.ok { s with ResolvedImage := m }, rest) := by
  refine (resolveImage_build_ok_iff s _ _ rest hb).mpr
    ⟨"1", m :: rest, promptForInput_choice_one _, Or.inl ⟨rfl, m, ?_, rfl⟩⟩
  rw [promptForInput_free, if_neg (fun h => hm (ht ▸ h.2)), ht]

/-- C12 as stated fails. A service with build context "./svc" and the port
"8080:80" has a build marker and one detected port; confirming it with the lines
"", "1", "nginx:latest" fails, because the port question finds no line left. And
when the supplied image name is itself a marker, the marker remains. -/
theorem confirmService_choice_one_counterexample :
    parser.getInitialImage { Build := Value.str "./svc", Ports := [Value.str "8080:80"] } =
      "\x7b\x7bBUILD_REQUIRED:./svc\x7d\x7d" ∧
    parser.parsePorts [Value.str "8080:80"] =
      [{ Host := 8080, Container := 80, Protocol := "tcp" }] ∧
    confirmService
        { Name := "web", ResolvedImage := "\x7b\x7bBUILD_REQUIRED:./svc\x7d\x7d",
          ResolvedPorts := [{ Host := 8080, Container := 80, Protocol := "tcp" }] }
        ["", "1", "nginx:latest"] =
      (Except.error "failed to read user input", []) ∧
    ConfirmServices
        [{ Name := "web", ResolvedImage := "\x7b\x7bBUILD_REQUIRED:./svc\x7d\x7d",
           ResolvedPorts := [{ Host := 8080, Container := 80, Protocol := "tcp" }] }]
        ["", "1", "nginx:latest"] =
      (Except.error "failed to confirm service web: failed to read user input", []) ∧
    confirmService { Name := "web", ResolvedImage := "\x7b\x7bBUILD_REQUIRED:./svc\x7d\x7d" }
        ["", "1", "\x7b\x7bBUILD_REQUIRED:./other\x7d\x7d"] =
      (Except.ok
        { Name := "web", ResolvedImage := "\x7b\x7bBUILD_REQUIRED:./other\x7d\x7d" }, []) ∧
    strings.HasPrefix "\x7b\x7bBUILD_REQUIRED:./other\x7d\x7d" "\x7b\x7bBUILD_REQUIRED:" = true :=
  ⟨by decide, by decide, by rfl, by rfl, by rfl, by decide⟩

/-- C12, amended: for a service with a non-empty name and a build marker, and a
non-empty image name `m` without surrounding white space: without detected ports,
the lines "", "1", `m` confirm it, all read, with image exactly `m` and nothing
else changed; with detected ports those three lines fail at the port question,
and one more line that is not a negative answer makes the confirmation succeed
with the same result. -/
theorem confirmService_choice_one (s : EnhancedServiceConfig) (m : String)
    (hn : s.Name ≠ "")
    (hb : strings.HasPrefix s.ResolvedImage "\x7b\x7bBUILD_REQUIRED:" = true)
    (hm : m ≠ "") (ht : strings.TrimSpace m = m) :
    (s.ResolvedPorts = [] →
      confirmService s ["", "1", m] = (Except.ok { s with ResolvedImage := m }, [])) ∧
    (s.ResolvedPorts ≠ [] →
      confirmService s ["", "1", m] = (Except.error "failed to read user input", [])) ∧
    (s.ResolvedPorts ≠ [] → ∀ a : String, ¬ negativeAnswer a →
      confirmService s ["", "1", m, a] = (Except.ok { s with ResolvedImage := m }, [])) := by
  have hname : ∀ rest : List String,
      promptForInput "Service name" s.Name true ("" :: rest) = (Except.ok "", rest) :=
    fun rest => promptForInput_keep _ _ _ _ _ hn keepAnswer_empty
  have himg : ∀ rest : List String,
      resolveImage (if ("" : String) ≠ "" then { s with Name := "" } else s)
        ("1" :: m :: rest) = (Except.ok { s with ResolvedImage := m }, rest) := by
    intro rest
    rw [if_neg (by simp)]
    exact resolveImage_choice_one s m rest hb hm ht
  refine ⟨?_, ?_, ?_⟩
  · intro hp
    exact (confirmService_ok_iff s _ _ _).mpr
      ⟨"", ["1", m], { s with ResolvedImage := m }, [], hname _, himg _,
        (confirmPorts_ok_iff _ _ _ _).mpr ⟨rfl, Or.inl ⟨hp, rfl⟩⟩⟩
  · intro hp
    have hl : ¬ (s.ResolvedPorts.length = 0) := fun h => hp (List.length_eq_zero.mp h)
    unfold confirmService confirmString
    simp only [hname, himg]
    unfold confirmPorts
    simp only [hl, if_false, promptForInput_nil]
  · intro hp a ha
    refine (confirmService_ok_iff s _ _ _).mpr
      ⟨"", ["1", m, a], { s with ResolvedImage := m }, [a], hname _, himg _,
        (confirmPorts_ok_iff _ _ _ _).mpr ⟨rfl, Or.inr ⟨hp, ?_⟩⟩⟩
    by_cases hk : keepAnswer a
    · exact ⟨"", promptForInput_keep _ _ _ _ _ (by decide) hk⟩
    · exact ⟨strings.TrimSpace a, promptForInput_text _ _ _ _ _ (by decide) hk ha⟩

/-- The service "web" with build context "./svc" and no port, confirmed with the
image "nginx:latest". -/
theorem confirmService_choice_one_witness :
    confirmService { Name := "web", ResolvedImage := "\x7b\x7bBUILD_REQUIRED:./svc\x7d\x7d" }
        ["", "1", "nginx:latest"] =
      (Except.ok { Name := "web", ResolvedImage := "nginx:latest" }, []) :=
  (confirmService_choice_one
    { Name := "web", ResolvedImage := "\x7b\x7bBUILD_REQUIRED:./svc\x7d\x7d" } "nginx:latest"
    (by decide) (by decide) (by decide) (by decide)).1 rfl

theorem append_latest_ne_empty (n : String) : n ++ ":latest" ≠ "" := by
  intro h
  have h1 := congrArg (fun x : String => x.data.length) h
  simp [String.data_append] at h1

/-- C11 as stated fails. With a build marker, choice "2" followed by an empty
line or by "y" confirms the service with an empty image; and choice "3" followed
by a typed marker confirms it with that marker. -/
theorem confirmService_build_counterexample :
    confirmService { Name := "web", ResolvedImage := "\x7b\x7bBUILD_REQUIRED:./svc\x7d\x7d" }
        ["", "2", ""] =
      (Except.ok { Name := "web", ResolvedImage := "" }, []) ∧
    confirmService { Name := "web", ResolvedImage := "\x7b\x7bBUILD_REQUIRED:./svc\x7d\x7d" }
        ["", "2", "y"] =
      (Except.ok { Name := "web", ResolvedImage := "" }, []) ∧
    confirmService { Name := "web", ResolvedImage := "\x7b\x7bBUILD_REQUIRED:./svc\x7d\x7d" }
        ["", "3", "\x7b\x7bBUILD_REQUIRED:./svc\x7d\x7d"] =
      (Except.ok
        { Name := "web", ResolvedImage := "\x7b\x7bBUILD_REQUIRED:./svc\x7d\x7d" }, []) ∧
    strings.HasPrefix "\x7b\x7bBUILD_REQUIRED:./svc\x7d\x7d" "\x7b\x7bBUILD_REQUIRED:" = true :=
  ⟨by rfl, by rfl, by rfl, by decide⟩

/-- C11, amended: for a service with a build marker whose confirmation succeeds,
the confirmed image does not begin with `{{BUILD_REQUIRED:` when neither the
service name nor a trimmed input line begins with `{{BUILD_REQUIRED`; and it is
not empty whenever the choice obtained is other than "2", or is "2" and the
response to the image-name prompt is not a keep answer. -/
theorem confirmService_build_concrete (s t : EnhancedServiceConfig)
    (lines rest : List String)
    (hb : strings.HasPrefix s.ResolvedImage "\x7b\x7bBUILD_REQUIRED:" = true)
    (hok : confirmService s lines = (Except.ok t, rest)) :
    (strings.HasPrefix s.Name "\x7b\x7bBUILD_REQUIRED" = false →
      (∀ l ∈ lines,
        strings.HasPrefix (strings.TrimSpace l) "\x7b\x7bBUILD_REQUIRED" = false) →
      strings.HasPrefix t.ResolvedImage "\x7b\x7bBUILD_REQUIRED:" = false) ∧
    (∀ (newName : String) (l1 : List String) (c : String) (l2 : List String),
      promptForInput "Service name" s.Name true lines = (Except.ok newName, l1) →
      promptForInput "Choice [1-3]" "1" true l1 = (Except.ok c, l2) →
      (c ≠ "2" ∨ ∃ (resp : String) (l3 : List String), l2 = resp :: l3 ∧ ¬ keepAnswer resp) →
      t.ResolvedImage ≠ "") := by
  constructor
  · intro hname hlines
    obtain ⟨_, hn, himg⟩ := confirmService_ok _ _ _ _ hok
    have hn' : strings.HasPrefix t.Name "\x7b\x7bBUILD_REQUIRED" = false := by
      rcases hn with e | ⟨l, hl, e⟩
      · rw [e]
        exact hname
      · rw [e]
        exact hlines l hl
    rcases himg with ⟨_, h0⟩ | e | ⟨l, hl, e⟩ | e
    · rw [hb] at h0
      exact absurd h0 (by decide)
    · rw [e]
      decide
    · rw [e]
      exact HasPrefix_marker_colon _ (hlines l hl)
    · rw [e]
      exact HasPrefix_marker_latest _ hn'
  · intro newName l1 c l2 hp hq hpath
    obtain ⟨newName', l1', c', l2', hp', hr, hc⟩ :=
      (confirmService_ok_iff s t lines rest).mp hok
    rw [hp] at hp'
    simp only [Prod.mk.injEq, Except.ok.injEq] at hp'
    obtain ⟨rfl, rfl⟩ := hp'
    obtain ⟨rfl, _⟩ := (confirmPorts_ok_iff c' t l2' rest).mp hc
    have hb' : strings.HasPrefix
        (if newName ≠ "" then { s with Name := newName } else s).ResolvedImage
        "\x7b\x7bBUILD_REQUIRED:" = true := by
      split_ifs <;> exact hb
    obtain ⟨choice, k1, hq', hcase⟩ := (resolveImage_build_ok_iff _ _ _ _ hb').mp hr
    rw [hq] at hq'
    simp only [Prod.mk.injEq, Except.ok.injEq] at hq'
    obtain ⟨rfl, rfl⟩ := hq'
    rcases hcase with ⟨_, img, hi, rfl⟩ | ⟨h2, img, hi, rfl⟩ | ⟨_, img, hi, rfl⟩ |
      ⟨_, _, _, _, rfl⟩
    · exact promptForInput_free_ne_empty _ _ _ _ hi
    · rcases hpath with h | ⟨resp, l3, rfl, hk⟩
      · exact absurd h2 h
      · exact promptForInput_required_ne_empty _ _ _ _ _ _ hk hi
    · exact promptForInput_free_ne_empty _ _ _ _ hi
    · exact append_latest_ne_empty _

/-- The service "web" with build context "./svc", choice "2" and the typed image
"web:v2". -/
theorem confirmService_build_concrete_witness :
    strings.HasPrefix "web:v2" "\x7b\x7bBUILD_REQUIRED:" = false ∧ "web:v2" ≠ "" :=
  ⟨(confirmService_build_concrete
      { Name := "web", ResolvedImage := "\x7b\x7bBUILD_REQUIRED:./svc\x7d\x7d" }
      { Name := "web", ResolvedImage := "web:v2" } ["", "2", "web:v2"] []
      (by decide) (by rfl)).1 (by decide) (by decide),
    (confirmService_build_concrete
      { Name := "web", ResolvedImage := "\x7b\x7bBUILD_REQUIRED:./svc\x7d\x7d" }
      { Name := "web", ResolvedImage := "web:v2" } ["", "2", "web:v2"] []
      (by decide) (by rfl)).2 "" ["2", "web:v2"] "2" ["web:v2"] (by rfl) (by rfl)
      (Or.inr ⟨"web:v2", [], rfl, by decide⟩)⟩

/-! ### The loop over the services -/

theorem confirmLoop_acc (services : List EnhancedServiceConfig) :
    ∀ (acc : List EnhancedServiceConfig) (lines : List String)
      (out : List EnhancedServiceConfig) (rest : List String),
      confirmLoop services acc lines = (Except.ok out, rest) ↔
        ∃ o : List EnhancedServiceConfig,
          confirmLoop services [] lines = (Except.ok o, rest) ∧ out = acc ++ o := by
  induction services with
  | nil =>
    intro acc lines out rest
    simp only [confirmLoop, Prod.mk.injEq, Except.ok.injEq]
    constructor
    · rintro ⟨rfl, rfl⟩
      exact ⟨[], ⟨rfl, rfl⟩, by simp⟩
    · rintro ⟨o, ⟨rfl, rfl⟩, rfl⟩
      exact ⟨by simp, rfl⟩
  | cons s ss ih =>
    intro acc lines out rest
    simp only [confirmLoop]
    cases hc : confirmService s lines with
    | mk r l1 =>
      cases r with
      | error e => simp
      | ok c =>
        simp only [List.nil_append]
        rw [ih (acc ++ [c]) l1 out rest]
        constructor
        · rintro ⟨o, ho, rfl⟩
          exact ⟨c :: o, (ih [c] l1 (c :: o) rest).mpr ⟨o, ho, rfl⟩, by simp⟩
        · rintro ⟨o, ho, rfl⟩
          obtain ⟨o', ho', rfl⟩ := (ih [c] l1 o rest).mp ho
          exact ⟨o', ho', by simp⟩

theorem ConfirmServices_cons (s : EnhancedServiceConfig) (ss : List EnhancedServiceConfig)
    (lines : List String) (out : List EnhancedServiceConfig) (rest : List String) :
    ConfirmServices (s :: ss) lines = (Except.ok out, rest) ↔
      ∃ (t : EnhancedServiceConfig) (l1 : List String) (o : List EnhancedServiceConfig),
        confirmService s lines = (Except.ok t, l1) ∧
        ConfirmServices ss l1 = (Except.ok o, rest) ∧ out = t :: o := by
  unfold ConfirmServices
  simp only [confirmLoop]
  cases hc : confirmService s lines with
  | mk r l1 =>
    cases r with
    | error e => simp
    | ok c =>
      simp only [List.nil_append]
      rw [confirmLoop_acc ss [c] l1 out rest]
      constructor
      · rintro ⟨o, ho, rfl⟩
        exact ⟨c, l1, o, rfl, ho, rfl⟩
      · rintro ⟨t, k1, o, he, ho, rfl⟩
        simp only [Prod.mk.injEq, Except.ok.injEq] at he
        obtain ⟨rfl, rfl⟩ := he
        exact ⟨o, ho, rfl⟩

theorem ConfirmServices_append (xs ys : List EnhancedServiceConfig) :
    ∀ (lines : List String) (out : List EnhancedServiceConfig) (rest : List String),
      ConfirmServices (xs ++ ys) lines = (Except.ok out, rest) ↔
        ∃ (o1 : List EnhancedServiceConfig) (l1 : List String)
          (o2 : List EnhancedServiceConfig),
          ConfirmServices xs lines = (Except.ok o1, l1) ∧
          ConfirmServices ys l1 = (Except.ok o2, rest) ∧ out = o1 ++ o2 := by
  induction xs with
  | nil =>
    intro lines out rest
    constructor
    · intro h
      exact ⟨[], lines, out, rfl, h, rfl⟩
    · rintro ⟨o1, l1, o2, h1, h2, rfl⟩
      simp only [ConfirmServices, confirmLoop, Prod.mk.injEq, Except.ok.injEq] at h1
      obtain ⟨rfl, rfl⟩ := h1
      exact h2
  | cons x xs ih =>
    intro lines out rest
    rw [List.cons_append, ConfirmServices_cons]
    constructor
    · rintro ⟨t, l1, o, ht, ho, rfl⟩
      obtain ⟨o1, k1, o2, h1, h2, rfl⟩ := (ih l1 o rest).mp ho
      exact ⟨t :: o1, k1, o2, (ConfirmServices_cons x xs lines _ k1).mpr
        ⟨t, l1, o1, ht, h1, rfl⟩, h2, rfl⟩
    · rintro ⟨o1, k1, o2, h1, h2, rfl⟩
      obtain ⟨t, l1, o, ht, ho, rfl⟩ := (ConfirmServices_cons x xs lines o1 k1).mp h1
      exact ⟨t, l1, o ++ o2, ht, (ih l1 _ rest).mpr ⟨o, k1, o2, ho, h2, rfl⟩, rfl⟩

theorem ConfirmServices_pairwise (services : List EnhancedServiceConfig) :
    ∀ (lines : List String) (out : List EnhancedServiceConfig) (rest : List String),
      ConfirmServices services lines = (Except.ok out, rest) →
      List.Forall₂
        (fun s t => ∃ l l2 : List String, l <:+ lines ∧
          confirmService s l = (Except.ok t, l2)) services out := by
  induction services with
  | nil =>
    intro lines out rest h
    simp only [ConfirmServices, confirmLoop, Prod.mk.injEq, Except.ok.injEq] at h
    rw [← h.1]
    exact List.Forall₂.nil
  | cons s ss ih =>
    intro lines out rest h
    obtain ⟨t, l1, o, ht, ho, rfl⟩ := (ConfirmServices_cons s ss lines out rest).mp h
    obtain ⟨hs1, _, _⟩ := confirmService_ok _ _ _ _ ht
    refine List.Forall₂.cons ⟨lines, l1, List.suffix_refl _, ht⟩ ?_
    refine (ih l1 o rest ho).imp ?_
    rintro a b ⟨l, l2, hl, hc⟩
    exact ⟨l, l2, hl.trans hs1, hc⟩

/-- C16: confirmation is a fold over the services with only the unread lines
passed from one to the next: no service succeeds with all lines left; confirming
`s :: ss` succeeds exactly when `s` is confirmed and `ss` is confirmed on the lines
left; confirming `xs ++ ys` succeeds exactly when `xs` succeeds and `ys` succeeds
on the lines left over, the result being the two results appended; on success
the output is as long as the input and its elements are, in order, confirmations
of the input services. -/
theorem ConfirmServices_fold :
    (∀ lines : List String, ConfirmServices [] lines = (Except.ok [], lines)) ∧
    (∀ (s : EnhancedServiceConfig) (ss : List EnhancedServiceConfig) (lines : List String)
      (out : List EnhancedServiceConfig) (rest : List String),
      ConfirmServices (s :: ss) lines = (Except.ok out, rest) ↔
        ∃ (t : EnhancedServiceConfig) (l1 : List String) (o : List EnhancedServiceConfig),
          confirmService s lines = (Except.ok t, l1) ∧
          ConfirmServices ss l1 = (Except.ok o, rest) ∧ out = t :: o) ∧
    (∀ (xs ys : List EnhancedServiceConfig) (lines : List String)
      (out : List EnhancedServiceConfig) (rest : List String),
      ConfirmServices (xs ++ ys) lines = (Except.ok out, rest) ↔
        ∃ (o1 : List EnhancedServiceConfig) (l1 : List String)
          (o2 : List EnhancedServiceConfig),
          ConfirmServices xs lines = (Except.ok o1, l1) ∧
          ConfirmServices ys l1 = (Except.ok o2, rest) ∧ out = o1 ++ o2) ∧
    (∀ (services : List EnhancedServiceConfig) (lines : List String)
      (out : List EnhancedServiceConfig) (rest : List String),
      ConfirmServices services lines = (Except.ok out, rest) →
      out.length = services.length ∧
        List.Forall₂
          (fun s t => ∃ l l2 : List String, l <:+ lines ∧
            confirmService s l = (Except.ok t, l2)) services out) := by
  refine ⟨fun _ => rfl, ConfirmServices_cons, ConfirmServices_append, ?_⟩
  intro services lines out rest h
  have hf := ConfirmServices_pairwise services lines out rest h
  exact ⟨hf.length_eq.symm, hf⟩

/-- Two services confirmed on five lines: the first takes two lines, the second
the next two, and one line is left. -/
theorem ConfirmServices_fold_witness :
    ∃ (o1 : List EnhancedServiceConfig) (l1 : List String) (o2 : List EnhancedServiceConfig),
      ConfirmServices [{ Name := "web", ResolvedImage := "nginx" }] ["", "", "", "redis:7", "x"] =
        (Except.ok o1, l1) ∧
      ConfirmServices [{ Name := "cache", ResolvedImage := "redis" }] l1 =
        (Except.ok o2, ["x"]) ∧
      [({ Name := "web", ResolvedImage := "nginx" } : EnhancedServiceConfig),
        { Name := "cache", ResolvedImage := "redis:7" }] = o1 ++ o2 :=
  (ConfirmServices_fold.2.2.1 [{ Name := "web", ResolvedImage := "nginx" }]
    [{ Name := "cache", ResolvedImage := "redis" }] ["", "", "", "redis:7", "x"]
    [{ Name := "web", ResolvedImage := "nginx" }, { Name := "cache", ResolvedImage := "redis:7" }]
    ["x"]).mp (by rfl)

/-! ### Failure, success and the end of the input -/

theorem FailsAtEnd_done {α : Type} (v : α) : FailsAtEnd (LineReader.done v) := by
  intro lines e rest h
  simp [LineReader.done] at h

theorem IgnoresLaterLines_done {α : Type} (v : α) : IgnoresLaterLines (LineReader.done v) := by
  intro lines w rest more h
  simp only [LineReader.done, Prod.mk.injEq, Except.ok.injEq] at h ⊢
  exact ⟨h.1, by rw [h.2]⟩

theorem SucceedsOnMore_done {α : Type} (v : α) : SucceedsOnMore (LineReader.done v) :=
  fun lines => ⟨[], v, lines ++ [], rfl⟩

theorem FailsAtEnd_andThen {α β : Type} (F : LineReader α) (G : α → LineReader β)
    (hF : FailsAtEnd F) (hG : ∀ v, FailsAtEnd (G v)) : FailsAtEnd (F.andThen G) := by
  intro lines e rest h
  unfold LineReader.andThen at h
  split at h
  · rename_i err r hf
    simp only [Prod.mk.injEq, Except.error.injEq] at h
    obtain ⟨rfl, rfl⟩ := h
    exact hF lines _ _ hf
  · rename_i v r hf
    exact hG v r e rest h

theorem IgnoresLaterLines_andThen {α β : Type} (F : LineReader α) (G : α → LineReader β)
    (hF : IgnoresLaterLines F) (hG : ∀ v, IgnoresLaterLines (G v)) :
    IgnoresLaterLines (F.andThen G) := by
  intro lines w rest more h
  unfold LineReader.andThen at h ⊢
  split at h
  · simp at h
  · rename_i v r hf
    rw [hF lines v r more hf]
    exact hG v r w rest more h

theorem SucceedsOnMore_andThen {α β : Type} (F : LineReader α) (G : α → LineReader β)
    (hF : SucceedsOnMore F) (hI : IgnoresLaterLines F) (hG : ∀ v, SucceedsOnMore (G v)) :
    SucceedsOnMore (F.andThen G) := by
  intro lines
  obtain ⟨e1, v, r1, h1⟩ := hF lines
  obtain ⟨e2, w, r2, h2⟩ := hG v r1
  refine ⟨e1 ++ e2, w, r2, ?_⟩
  unfold LineReader.andThen
  rw [← List.append_assoc, hI _ v r1 e2 h1]
  exact h2

theorem promptForInput_text_x (f cur : String) (req : Bool) (more : List String) :
    promptForInput f cur req ("x" :: more) = (Except.ok "x", more) := by
  have ht : strings.TrimSpace "x" = "x" := by decide
  by_cases hc : cur = ""
  · subst hc
    rw [promptForInput_free, if_neg (by rw [ht]; simp), ht]
  · have h := promptForInput_text f cur req "x" more hc (by decide) (by decide)
    rw [ht] at h
    exact h

theorem promptForInput_succeeds_or_waits (f : String) (req : Bool) :
    ∀ (cur : String) (lines : List String),
      (∃ (v : String) (rest : List String),
        promptForInput f cur req lines = (Except.ok v, rest)) ∨
      (∀ more : List String,
        promptForInput f cur req (lines ++ "x" :: more) = (Except.ok "x", more)) := by
  have ht : strings.TrimSpace "x" = "x" := by decide
  intro cur lines
  induction cur, lines using promptForInput_induction req with
  | hnil cur =>
    right
    intro more
    exact promptForInput_text_x f cur req more
  | hkeep cur line rest hc hk =>
    exact Or.inl ⟨_, _, promptForInput_keep f cur req line rest hc hk⟩
  | hnegnil cur line hc hn =>
    right
    intro more
    show promptForInput f cur req (line :: "x" :: more) = _
    rw [promptForInput_negative f cur req line "x" more hc hn, if_neg (by rw [ht]; simp), ht]
  | hneg cur line line2 rest hc hn ih =>
    by_cases h1 : req = true ∧ strings.TrimSpace line2 = ""
    · rcases ih h1 with ⟨v, r, h⟩ | h
      · left
        refine ⟨v, r, ?_⟩
        rw [promptForInput_negative f cur req line line2 rest hc hn, if_pos h1]
        exact h
      · right
        intro more
        show promptForInput f cur req (line :: line2 :: (rest ++ "x" :: more)) = _
        rw [promptForInput_negative f cur req line line2 _ hc hn, if_pos h1]
        exact h more
    · left
      refine ⟨strings.TrimSpace line2, rest, ?_⟩
      rw [promptForInput_negative f cur req line line2 rest hc hn, if_neg h1]
  | htext cur line rest hc hk hn =>
    exact Or.inl ⟨_, _, promptForInput_text f cur req line rest hc hk hn⟩
  | hfree line rest ih =>
    by_cases h1 : req = true ∧ strings.TrimSpace line = ""
    · rcases ih h1 with ⟨v, r, h⟩ | h
      · left
        refine ⟨v, r, ?_⟩
        rw [promptForInput_free, if_pos h1]
        exact h
      · right
        intro more
        show promptForInput f "" req (line :: (rest ++ "x" :: more)) = _
        rw [promptForInput_free, if_pos h1]
        exact h more
    · left
      refine ⟨strings.TrimSpace line, rest, ?_⟩
      rw [promptForInput_free, if_neg h1]

theorem FailsAtEnd_promptForInput (f cur : String) (req : Bool) :
    FailsAtEnd (promptForInput f cur req) :=
  fun lines e rest h => promptForInput_error f req cur lines e rest h

theorem IgnoresLaterLines_promptForInput (f cur : String) (req : Bool) :
    IgnoresLaterLines (promptForInput f cur req) :=
  fun lines v rest more h => promptForInput_append f req more cur lines v rest h

theorem SucceedsOnMore_promptForInput (f cur : String) (req : Bool) :
    SucceedsOnMore (promptForInput f cur req) := by
  intro lines
  rcases promptForInput_succeeds_or_waits f req cur lines with ⟨v, r, h⟩ | h
  · exact ⟨[], v, r, by rw [List.append_nil]; exact h⟩
  · exact ⟨["x"], "x", [], h []⟩

theorem resolveImage_eq (s : EnhancedServiceConfig) :
    resolveImage s =
      if strings.HasPrefix s.ResolvedImage "\x7b\x7bBUILD_REQUIRED:" then
        LineReader.andThen (promptForInput "Choice [1-3]" "1" true) fun choice =>
          if choice = "1" then
            LineReader.andThen
              (promptForInput "Enter image name (e.g., my-app:latest)" "" true)
              fun imageName => LineReader.done { s with ResolvedImage := imageName }
          else if choice = "2" then
            LineReader.andThen
              (promptForInput "Enter image name to build (e.g., my-app:latest)"
                (s.Name ++ ":latest") true)
              fun imageName => LineReader.done { s with ResolvedImage := imageName }
          else if choice = "3" then
            LineReader.andThen
              (promptForInput "Enter final image name (e.g., registry.com/my-app:latest)"
                "" true)
              fun imageName => LineReader.done { s with ResolvedImage := imageName }
          else LineReader.done { s with ResolvedImage := s.Name ++ ":latest" }
      else
        LineReader.andThen (promptForInput "Image" s.ResolvedImage true) fun newImage =>
          if newImage ≠ "" then LineReader.done { s with ResolvedImage := newImage }
          else LineReader.done s := by
  funext lines
  unfold resolveImage confirmString
  split_ifs with hb
  · unfold LineReader.andThen
    cases promptForInput "Choice [1-3]" "1" true lines with
    | mk r l1 =>
      cases r with
      | error e => rfl
      | ok choice =>
        simp only
        split_ifs <;>
          first
          | rfl
          | (beta_reduce
             generalize promptForInput _ _ true l1 = pr
             rcases pr with ⟨_ | _, _⟩ <;> rfl)
  · unfold LineReader.andThen
    cases promptForInput "Image" s.ResolvedImage true lines with
    | mk r l1 =>
      cases r with
      | error e => rfl
      | ok v =>
        simp only
        split_ifs <;> rfl

theorem confirmPorts_eq (s : EnhancedServiceConfig) :
    confirmPorts s =
      if s.ResolvedPorts.length = 0 then LineReader.done s
      else LineReader.andThen (promptForInput "Keep these port mappings? (Y/n)" "Y" false)
        fun _ => LineReader.done s := by
  funext lines
  unfold confirmPorts
  split_ifs with h0
  · rfl
  · unfold LineReader.andThen
    cases promptForInput "Keep these port mappings? (Y/n)" "Y" false lines with
    | mk r l1 => cases r <;> rfl

theorem confirmService_eq (s : EnhancedServiceConfig) :
    confirmService s =
      LineReader.andThen (promptForInput "Service name" s.Name true) fun newName =>
        LineReader.andThen
          (resolveImage (if newName ≠ "" then { s with Name := newName } else s))
          fun confirmed => LineReader.andThen (confirmPorts confirmed)
            fun confirmed => LineReader.done confirmed := by
  funext lines
  unfold confirmService confirmString LineReader.andThen
  simp only
  cases promptForInput "Service name" s.Name true lines with
  | mk r l1 =>
    cases r with
    | error e => rfl
    | ok newName =>
      simp only
      cases resolveImage (if newName ≠ "" then { s with Name := newName } else s) l1 with
      | mk r2 l2 =>
        cases r2 with
        | error e => rfl
        | ok c =>
          simp only
          cases confirmPorts c l2 with
          | mk r3 l3 => cases r3 <;> rfl

theorem FailsAtEnd_resolveImage (s : EnhancedServiceConfig) : FailsAtEnd (resolveImage s) := by
  rw [resolveImage_eq]
  split_ifs
  · refine FailsAtEnd_andThen _ _ (FailsAtEnd_promptForInput _ _ _) (fun choice => ?_)
    split_ifs <;>
      first
      | exact FailsAtEnd_andThen _ _ (FailsAtEnd_promptForInput _ _ _)
          (fun _ => FailsAtEnd_done _)
      | exact FailsAtEnd_done _
  · refine FailsAtEnd_andThen _ _ (FailsAtEnd_promptForInput _ _ _) (fun v => ?_)
    split_ifs <;> exact FailsAtEnd_done _

theorem IgnoresLaterLines_resolveImage (s : EnhancedServiceConfig) :
    IgnoresLaterLines (resolveImage s) := by
  rw [resolveImage_eq]
  split_ifs
  · refine IgnoresLaterLines_andThen _ _ (IgnoresLaterLines_promptForInput _ _ _)
      (fun choice => ?_)
    split_ifs <;>
      first
      | exact IgnoresLaterLines_andThen _ _ (IgnoresLaterLines_promptForInput _ _ _)
          (fun _ => IgnoresLaterLines_done _)
      | exact IgnoresLaterLines_done _
  · refine IgnoresLaterLines_andThen _ _ (IgnoresLaterLines_promptForInput _ _ _)
      (fun v => ?_)
    split_ifs <;> exact IgnoresLaterLines_done _

theorem SucceedsOnMore_resolveImage (s : EnhancedServiceConfig) :
    SucceedsOnMore (resolveImage s) := by
  rw [resolveImage_eq]
  split_ifs
  · refine SucceedsOnMore_andThen _ _ (SucceedsOnMore_promptForInput _ _ _)
      (IgnoresLaterLines_promptForInput _ _ _) (fun choice => ?_)
    split_ifs <;>
      first
      | exact SucceedsOnMore_andThen _ _ (SucceedsOnMore_promptForInput _ _ _)
          (IgnoresLaterLines_promptForInput _ _ _) (fun _ => SucceedsOnMore_done _)
      | exact SucceedsOnMore_done _
  · refine SucceedsOnMore_andThen _ _ (SucceedsOnMore_promptForInput _ _ _)
      (IgnoresLaterLines_promptForInput _ _ _) (fun v => ?_)
    split_ifs <;> exact SucceedsOnMore_done _

theorem FailsAtEnd_confirmPorts (s : EnhancedServiceConfig) : FailsAtEnd (confirmPorts s) := by
  rw [confirmPorts_eq]
  split_ifs
  · exact FailsAtEnd_done _
  · exact FailsAtEnd_andThen _ _ (FailsAtEnd_promptForInput _ _ _) (fun _ => FailsAtEnd_done _)

theorem IgnoresLaterLines_confirmPorts (s : EnhancedServiceConfig) :
    IgnoresLaterLines (confirmPorts s) := by
  rw [confirmPorts_eq]
  split_ifs
  · exact IgnoresLaterLines_done _
  · exact IgnoresLaterLines_andThen _ _ (IgnoresLaterLines_promptForInput _ _ _)
      (fun _ => IgnoresLaterLines_done _)

theorem SucceedsOnMore_confirmPorts (s : EnhancedServiceConfig) :
    SucceedsOnMore (confirmPorts s) := by
  rw [confirmPorts_eq]
  split_ifs
  · exact SucceedsOnMore_done _
  · exact SucceedsOnMore_andThen _ _ (SucceedsOnMore_promptForInput _ _ _)
      (IgnoresLaterLines_promptForInput _ _ _) (fun _ => SucceedsOnMore_done _)

theorem FailsAtEnd_confirmService (s : EnhancedServiceConfig) :
    FailsAtEnd (confirmService s) := by
  rw [confirmService_eq]
  exact FailsAtEnd_andThen _ _ (FailsAtEnd_promptForInput _ _ _) fun _ =>
    FailsAtEnd_andThen _ _ (FailsAtEnd_resolveImage _) fun _ =>
      FailsAtEnd_andThen _ _ (FailsAtEnd_confirmPorts _) fun _ => FailsAtEnd_done _

theorem IgnoresLaterLines_confirmService (s : EnhancedServiceConfig) :
    IgnoresLaterLines (confirmService s) := by
  rw [confirmService_eq]
  exact IgnoresLaterLines_andThen _ _ (IgnoresLaterLines_promptForInput _ _ _) fun _ =>
    IgnoresLaterLines_andThen _ _ (IgnoresLaterLines_resolveImage _) fun _ =>
      IgnoresLaterLines_andThen _ _ (IgnoresLaterLines_confirmPorts _) fun _ =>
        IgnoresLaterLines_done _

theorem SucceedsOnMore_confirmService (s : EnhancedServiceConfig) :
    SucceedsOnMore (confirmService s) := by
  rw [confirmService_eq]
  exact SucceedsOnMore_andThen _ _ (SucceedsOnMore_promptForInput _ _ _)
    (IgnoresLaterLines_promptForInput _ _ _) fun _ =>
    SucceedsOnMore_andThen _ _ (SucceedsOnMore_resolveImage _)
      (IgnoresLaterLines_resolveImage _) fun _ =>
      SucceedsOnMore_andThen _ _ (SucceedsOnMore_confirmPorts _)
        (IgnoresLaterLines_confirmPorts _) fun _ => SucceedsOnMore_done _

theorem confirmLoop_error (services : List EnhancedServiceConfig) :
    ∀ (acc : List EnhancedServiceConfig) (lines : List String) (e : String)
      (rest : List String),
      confirmLoop services acc lines = (Except.error e, rest) →
      rest = [] ∧ ∃ s ∈ services,
        e = "failed to confirm service " ++ s.Name ++ ": " ++ "failed to read user input" := by
  induction services with
  | nil =>
    intro acc lines e rest h
    simp [confirmLoop] at h
  | cons s ss ih =>
    intro acc lines e rest h
    simp only [confirmLoop] at h
    split at h
    · rename_i err l1 hc
      obtain ⟨hr, he⟩ := FailsAtEnd_confirmService s lines err l1 hc
      simp only [Prod.mk.injEq, Except.error.injEq] at h
      obtain ⟨rfl, rfl⟩ := h
      exact ⟨hr, s, List.mem_cons_self _ _, by rw [he]⟩
    · rename_i c l1 hc
      obtain ⟨hr, s0, hs0, he⟩ := ih _ _ _ _ h
      exact ⟨hr, s0, List.mem_cons_of_mem _ hs0, he⟩

theorem IgnoresLaterLines_ConfirmServices (services : List EnhancedServiceConfig) :
    IgnoresLaterLines (ConfirmServices services) := by
  induction services with
  | nil =>
    intro lines out rest more h
    simp only [ConfirmServices, confirmLoop, Prod.mk.injEq, Except.ok.injEq] at h ⊢
    exact ⟨h.1, by rw [h.2]⟩
  | cons s ss ih =>
    intro lines out rest more h
    obtain ⟨t, l1, o, ht, ho, rfl⟩ := (ConfirmServices_cons s ss lines out rest).mp h
    exact (ConfirmServices_cons s ss _ _ _).mpr
      ⟨t, l1 ++ more, o, IgnoresLaterLines_confirmService s lines t l1 more ht,
        ih l1 o rest more ho, rfl⟩

theorem SucceedsOnMore_ConfirmServices (services : List EnhancedServiceConfig) :
    SucceedsOnMore (ConfirmServices services) := by
  induction services with
  | nil => exact fun lines => ⟨[], [], lines ++ [], rfl⟩
  | cons s ss ih =>
    intro lines
    obtain ⟨e1, t, r1, h1⟩ := SucceedsOnMore_confirmService s lines
    obtain ⟨e2, o, r2, h2⟩ := ih r1
    refine ⟨e1 ++ e2, t :: o, r2, (ConfirmServices_cons s ss _ _ _).mpr
      ⟨t, r1 ++ e2, o, ?_, h2, rfl⟩⟩
    rw [← List.append_assoc]
    exact IgnoresLaterLines_confirmService s _ t r1 e2 h1

/-- C14: `ConfirmServices` fails only at the end of the input. A prompt asked
with no line left fails; every error of a prompt and of `ConfirmServices` is that
failed read, raised when every line has been read, and an error carries no list
of services; a success reads nothing beyond its input, so it is unchanged when
lines are appended; and every input can be extended to one that succeeds, so no
answer, blank or unrecognised, is by itself an error. -/
theorem ConfirmServices_fails_at_end :
    (∀ (f cur : String) (req : Bool),
      promptForInput f cur req [] = (Except.error "failed to read user input", [])) ∧
    (∀ (f cur : String) (req : Bool) (lines : List String) (e : String) (rest : List String),
      promptForInput f cur req lines = (Except.error e, rest) →
      rest = [] ∧ e = "failed to read user input") ∧
    (∀ (services : List EnhancedServiceConfig) (lines : List String) (e : String)
      (rest : List String),
      ConfirmServices services lines = (Except.error e, rest) →
      rest = [] ∧ ∃ s ∈ services,
        e = "failed to confirm service " ++ s.Name ++ ": " ++ "failed to read user input") ∧
    (∀ (services : List EnhancedServiceConfig) (lines : List String)
      (out : List EnhancedServiceConfig) (rest more : List String),
      ConfirmServices services lines = (Except.ok out, rest) →
      ConfirmServices services (lines ++ more) = (Except.ok out, rest ++ more)) ∧
    (∀ (services : List EnhancedServiceConfig) (lines : List String),
      ∃ (extra : List String) (out : List EnhancedServiceConfig) (rest : List String),
        ConfirmServices services (lines ++ extra) = (Except.ok out, rest)) ∧
    ConfirmServices [{ Name := "", ResolvedImage := "\x7b\x7bBUILD_REQUIRED:.\x7d\x7d" }]
        ["", "  ", "web", "zzz"] =
      (Except.ok [{ Name := "web", ResolvedImage := "web:latest" }], []) ∧
    ConfirmServices [{ Name := "web", ResolvedImage := "\x7b\x7bBUILD_REQUIRED:.\x7d\x7d" }]
        ["", "1", " "] =
      (Except.error "failed to confirm service web: failed to read user input", []) := by
  refine ⟨promptForInput_nil, ?_, ?_, ?_, ?_, by rfl, by rfl⟩
  · intro f cur req lines e rest h
    exact promptForInput_error f req cur lines e rest h
  · intro services lines e rest h
    exact confirmLoop_error services [] lines e rest h
  · intro services lines out rest more h
    exact IgnoresLaterLines_ConfirmServices services lines out rest more h
  · intro services lines
    exact SucceedsOnMore_ConfirmServices services lines

/-- The service "web" confirmed with one line only: the image prompt finds no
line left. -/
theorem ConfirmServices_fails_at_end_witness :
    ([] : List String) = [] ∧ ∃ s ∈ [({ Name := "web", ResolvedImage := "nginx" } :
        EnhancedServiceConfig)],
      "failed to confirm service web: failed to read user input" =
        "failed to confirm service " ++ s.Name ++ ": " ++ "failed to read user input" :=
  ConfirmServices_fails_at_end.2.2.1 [{ Name := "web", ResolvedImage := "nginx" }] [""]
    "failed to confirm service web: failed to read user input" [] (by rfl)

/-! ### Termination of the re-prompt -/

theorem promptForInputFuel_eq (f : String) (req : Bool) :
    ∀ (cur : String) (lines : List String) (fuel : Nat), lines.length < fuel →
      promptForInputFuel f fuel cur req lines = some (promptForInput f cur req lines) := by
  intro cur lines
  induction cur, lines using promptForInput_induction req with
  | hnil cur =>
    intro fuel hf
    obtain ⟨k, rfl⟩ : ∃ k, fuel = k + 1 := ⟨fuel - 1, by omega⟩
    rw [promptForInput_nil]
    simp only [promptForInputFuel]
  | hkeep cur line rest hc hk =>
    intro fuel hf
    obtain ⟨k, rfl⟩ : ∃ k, fuel = k + 1 := ⟨fuel - 1, by omega⟩
    rw [promptForInput_keep f cur req line rest hc hk]
    unfold keepAnswer at hk
    simp only [promptForInputFuel]
    rw [if_pos hc, if_pos hk]
  | hnegnil cur line hc hn =>
    intro fuel hf
    obtain ⟨k, rfl⟩ : ∃ k, fuel = k + 1 := ⟨fuel - 1, by omega⟩
    rw [promptForInput_negative_nil f cur req line hc hn]
    have hk := negativeAnswer_not_keep line hn
    unfold keepAnswer at hk
    unfold negativeAnswer at hn
    simp only [promptForInputFuel]
    rw [if_pos hc, if_neg hk, if_pos hn]
  | hneg cur line line2 rest hc hn ih =>
    intro fuel hf
    obtain ⟨k, rfl⟩ : ∃ k, fuel = k + 1 := ⟨fuel - 1, by omega⟩
    rw [promptForInput_negative f cur req line line2 rest hc hn]
    have hk := negativeAnswer_not_keep line hn
    unfold keepAnswer at hk
    unfold negativeAnswer at hn
    simp only [promptForInputFuel]
    rw [if_pos hc, if_neg hk, if_pos hn]
    split_ifs with h1
    · exact ih h1 k (by simp at hf; omega)
    · rfl
  | htext cur line rest hc hk hn =>
    intro fuel hf
    obtain ⟨k, rfl⟩ : ∃ k, fuel = k + 1 := ⟨fuel - 1, by omega⟩
    rw [promptForInput_text f cur req line rest hc hk hn]
    have he : ¬ (req = true ∧ strings.TrimSpace line = "") := fun h => hk (Or.inl h.2)
    unfold keepAnswer at hk
    unfold negativeAnswer at hn
    simp only [promptForInputFuel]
    rw [if_pos hc, if_neg hk, if_neg hn, if_neg he]
  | hfree line rest ih =>
    intro fuel hf
    obtain ⟨k, rfl⟩ : ∃ k, fuel = k + 1 := ⟨fuel - 1, by omega⟩
    rw [promptForInput_free]
    simp only [promptForInputFuel]
    rw [if_neg (by simp)]
    split_ifs with h1
    · exact ih h1 k (by simp at hf; omega)
    · rfl

theorem promptForInput_ok_shorter (f : String) (req : Bool) :
    ∀ (cur : String) (lines : List String) (v : String) (rest : List String),
      promptForInput f cur req lines = (Except.ok v, rest) →
      rest.length < lines.length := by
  intro cur lines
  induction cur, lines using promptForInput_induction req with
  | hnil cur =>
    intro v r h
    rw [promptForInput_nil] at h
    simp at h
  | hkeep cur line rest hc hk =>
    intro v r h
    rw [promptForInput_keep f cur req line rest hc hk] at h
    simp only [Prod.mk.injEq, Except.ok.injEq] at h
    rw [← h.2]
    simp only [List.length_cons]
    omega
  | hnegnil cur line hc hn =>
    intro v r h
    rw [promptForInput_negative_nil f cur req line hc hn] at h
    simp at h
  | hneg cur line line2 rest hc hn ih =>
    intro v r h
    rw [promptForInput_negative f cur req line line2 rest hc hn] at h
    split_ifs at h with h1
    · have := ih h1 v r h
      simp only [List.length_cons]
      omega
    · simp only [Prod.mk.injEq, Except.ok.injEq] at h
      rw [← h.2]
      simp only [List.length_cons]
      omega
  | htext cur line rest hc hk hn =>
    intro v r h
    rw [promptForInput_text f cur req line rest hc hk hn] at h
    simp only [Prod.mk.injEq, Except.ok.injEq] at h
    rw [← h.2]
    simp only [List.length_cons]
    omega
  | hfree line rest ih =>
    intro v r h
    rw [promptForInput_free] at h
    split_ifs at h with h1
    · have := ih h1 v r h
      simp only [List.length_cons]
      omega
    · simp only [Prod.mk.injEq, Except.ok.injEq] at h
      rw [← h.2]
      simp only [List.length_cons]
      omega

theorem ok_or_read_error {α : Type} (F : LineReader α) (hF : FailsAtEnd F)
    (lines : List String) :
    (∃ (v : α) (rest : List String), F lines = (Except.ok v, rest)) ∨
      F lines = (Except.error "failed to read user input", []) := by
  cases h : F lines with
  | mk r rest =>
    cases r with
    | ok v => exact Or.inl ⟨v, rest, rfl⟩
    | error e =>
      obtain ⟨h1, h2⟩ := hF lines e rest h
      rw [h1, h2]
      exact Or.inr rfl

/-- C21: the re-prompt terminates on every finite input. Run with a bound on the
call depth, `promptForInput` returns its result as soon as the bound exceeds the
number of unread lines; each retry is entered with at least one line fewer; the
call ends with a value, having read at least one line, or with the failed read;
and so do `confirmService` and `ConfirmServices`, whose only other repetition is
the loop over the finite list of services. -/
theorem promptForInput_terminates :
    (∀ (f cur : String) (req : Bool) (lines : List String) (fuel : Nat),
      lines.length < fuel →
      promptForInputFuel f fuel cur req lines = some (promptForInput f cur req lines)) ∧
    (∀ (f line : String) (rest : List String) (fuel : Nat), strings.TrimSpace line = "" →
      promptForInputFuel f (fuel + 1) "" true (line :: rest) =
        promptForInputFuel f fuel "" true rest) ∧
    (∀ (f cur line line2 : String) (rest : List String) (fuel : Nat), cur ≠ "" →
      negativeAnswer line → strings.TrimSpace line2 = "" →
      promptForInputFuel f (fuel + 1) cur true (line :: line2 :: rest) =
        promptForInputFuel f fuel "" true rest) ∧
    (∀ (f cur : String) (req : Bool) (lines : List String),
      (∃ (v : String) (rest : List String),
        promptForInput f cur req lines = (Except.ok v, rest) ∧
        rest.length < lines.length) ∨
      promptForInput f cur req lines = (Except.error "failed to read user input", [])) ∧
    (∀ (s : EnhancedServiceConfig) (lines : List String),
      (∃ (t : EnhancedServiceConfig) (rest : List String),
        confirmService s lines = (Except.ok t, rest)) ∨
      confirmService s lines = (Except.error "failed to read user input", [])) ∧
    (∀ (services : List EnhancedServiceConfig) (lines : List String),
      (∃ (out : List EnhancedServiceConfig) (rest : List String),
        ConfirmServices services lines = (Except.ok out, rest)) ∨
      ∃ s ∈ services, ConfirmServices services lines =
        (Except.error
          ("failed to confirm service " ++ s.Name ++ ": " ++ "failed to read user input"),
          [])) ∧
    promptForInputFuel "Service name" 2 "" true ["", ""] = none ∧
    promptForInputFuel "Service name" 3 "" true ["", ""] =
      some (Except.error "failed to read user input", []) ∧
    promptForInputFuel "Service name" 3 "web" true ["n", "", "", "api"] =
      some (Except.ok "api", []) := by
  refine ⟨?_, ?_, ?_, ?_, ?_, ?_, by rfl, by rfl, by rfl⟩
  · intro f cur req lines fuel hf
    exact promptForInputFuel_eq f req cur lines fuel hf
  · intro f line rest fuel hl
    simp only [promptForInputFuel]
    rw [if_neg (by simp), if_pos ⟨trivial, hl⟩]
  · intro f cur line line2 rest fuel hc hn hl
    have hk := negativeAnswer_not_keep line hn
    unfold keepAnswer at hk
    unfold negativeAnswer at hn
    simp only [promptForInputFuel]
    rw [if_pos hc, if_neg hk, if_pos hn, if_pos ⟨trivial, hl⟩]
  · intro f cur req lines
    rcases ok_or_read_error _ (FailsAtEnd_promptForInput f cur req) lines with
      ⟨v, rest, h⟩ | h
    · exact Or.inl ⟨v, rest, h, promptForInput_ok_shorter f req cur lines v rest h⟩
    · exact Or.inr h
  · intro s lines
    exact ok_or_read_error _ (FailsAtEnd_confirmService s) lines
  · intro services lines
    cases h : ConfirmServices services lines with
    | mk r rest =>
      cases r with
      | ok out => exact Or.inl ⟨out, rest, rfl⟩
      | error e =>
        obtain ⟨h1, s, hs, h2⟩ := confirmLoop_error services [] lines e rest h
        exact Or.inr ⟨s, hs, by rw [h1, h2]⟩

/-- Two blank lines for a name without a detected value: three calls suffice. -/
theorem promptForInput_terminates_witness :
    promptForInputFuel "Service name" 3 "" true ["", ""] =
      some (promptForInput "Service name" "" true ["", ""]) :=
  promptForInput_terminates.1 "Service name" "" true ["", ""] 3 (by decide)

/-- C22: for a service with a build marker, a keep answer to the choice prompt
(empty, "y" or "yes", in any case, white space around it ignored) makes the prompt
return the empty signal, and the image step then asks for no image name and sets
the image to the name followed by ":latest"; the prompt returns "1" only when a
line reading "1" was typed, and such a line does select choice 1. -/
theorem resolveImage_keep_default :
    (∀ (s : EnhancedServiceConfig) (line : String) (rest : List String),
      strings.HasPrefix s.ResolvedImage "\x7b\x7bBUILD_REQUIRED:" = true → keepAnswer line →
      promptForInput "Choice [1-3]" "1" true (line :: rest) = (Except.ok "", rest) ∧
      resolveImage s (line :: rest) =
        (Except.ok { s with ResolvedImage := s.Name ++ ":latest" }, rest)) ∧
    (∀ (lines l1 : List String),
      promptForInput "Choice [1-3]" "1" true lines = (Except.ok "1", l1) →
      ∃ l ∈ lines, strings.TrimSpace l = "1") ∧
    (∀ (s : EnhancedServiceConfig) (line m : String) (rest : List String),
      strings.HasPrefix s.ResolvedImage "\x7b\x7bBUILD_REQUIRED:" = true →
      strings.TrimSpace line = "1" → strings.TrimSpace m ≠ "" →
      resolveImage s (line :: m :: rest) =
        (Except.ok { s with ResolvedImage := strings.TrimSpace m }, rest)) ∧
    resolveImage { Name := "web", ResolvedImage := "\x7b\x7bBUILD_REQUIRED:./svc\x7d\x7d" }
        ["", "nginx:1.27"] =
      (Except.ok { Name := "web", ResolvedImage := "web:latest" }, ["nginx:1.27"]) ∧
    resolveImage { Name := "web", ResolvedImage := "\x7b\x7bBUILD_REQUIRED:./svc\x7d\x7d" }
        [" Yes ", "nginx:1.27"] =
      (Except.ok { Name := "web", ResolvedImage := "web:latest" }, ["nginx:1.27"]) ∧
    resolveImage { Name := "web", ResolvedImage := "\x7b\x7bBUILD_REQUIRED:./svc\x7d\x7d" }
        ["1", "nginx:1.27"] =
      (Except.ok { Name := "web", ResolvedImage := "nginx:1.27" }, []) := by
  refine ⟨?_, ?_, ?_, by rfl, by rfl, by rfl⟩
  · intro s line rest hb hk
    have hp : promptForInput "Choice [1-3]" "1" true (line :: rest) = (Except.ok "", rest) :=
      promptForInput_keep _ _ _ _ _ (by decide) hk
    refine ⟨hp, ?_⟩
    exact (resolveImage_build_ok_iff s _ _ rest hb).mpr
      ⟨"", rest, hp, Or.inr (Or.inr (Or.inr
        ⟨by decide, by decide, by decide, rfl, rfl⟩))⟩
  · intro lines l1 h
    obtain ⟨hv, _⟩ := promptForInput_ok _ _ _ _ _ _ h
    rcases hv with hv | ⟨l, hl, hv⟩
    · exact absurd hv (by decide)
    · exact ⟨l, hl, hv.symm⟩
  · intro s line m rest hb hl hm
    have hk : ¬ keepAnswer line := by
      unfold keepAnswer
      rw [hl]
      decide
    have hn : ¬ negativeAnswer line := by
      unfold negativeAnswer
      rw [hl]
      decide
    have hp : promptForInput "Choice [1-3]" "1" true (line :: m :: rest) =
        (Except.ok "1", m :: rest) := by
      rw [promptForInput_text _ _ _ _ _ (by decide) hk hn, hl]
    refine (resolveImage_build_ok_iff s _ _ rest hb).mpr
      ⟨"1", m :: rest, hp, Or.inl ⟨rfl, strings.TrimSpace m, ?_, rfl⟩⟩
    rw [promptForInput_free, if_neg (fun h => hm h.2)]

/-- The service "web" with a build marker and the answer "y" to the choice. -/
theorem resolveImage_keep_default_witness :
    promptForInput "Choice [1-3]" "1" true ("y" :: ["unread"]) = (Except.ok "", ["unread"]) ∧
    resolveImage { Name := "web", ResolvedImage := "\x7b\x7bBUILD_REQUIRED:./svc\x7d\x7d" }
        ("y" :: ["unread"]) =
      (Except.ok { Name := "web", ResolvedImage := "web" ++ ":latest" }, ["unread"]) :=
  resolveImage_keep_default.1
    { Name := "web", ResolvedImage := "\x7b\x7bBUILD_REQUIRED:./svc\x7d\x7d" } "y" ["unread"]
    (by decide) (by decide)

/-! ### Markers after confirmation -/

theorem resolveImage_plain_ok_iff (s t : EnhancedServiceConfig) (lines rest : List String)
    (hb : strings.HasPrefix s.ResolvedImage "\x7b\x7bBUILD_REQUIRED:" = false) :
    resolveImage s lines = (Except.ok t, rest) ↔
      ∃ newImage : String,
        promptForInput "Image" s.ResolvedImage true lines = (Except.ok newImage, rest) ∧
        t = if newImage ≠ "" then { s with ResolvedImage := newImage } else s := by
  have hb' : ¬ strings.HasPrefix s.ResolvedImage "\x7b\x7bBUILD_REQUIRED:" = true := by
    rw [hb]
    decide
  unfold resolveImage confirmString
  rw [if_neg hb']
  constructor
  · intro h
    split at h
    · simp at h
    · rename_i newImage l1 hp
      refine ⟨newImage, ?_, ?_⟩
      · split_ifs at h <;>
          (simp only [Prod.mk.injEq, Except.ok.injEq] at h
           rw [hp, ← h.2])
      · split_ifs at h ⊢ <;>
          (simp only [Prod.mk.injEq, Except.ok.injEq] at h
           exact h.1.symm)
  · rintro ⟨newImage, hp, rfl⟩
    simp only [hp]
    split_ifs <;> rfl

theorem promptForInput_empty_keep (f cur : String) (lines rest : List String)
    (h : promptForInput f cur true lines = (Except.ok "", rest)) :
    ∃ line : String, lines = line :: rest ∧ keepAnswer line := by
  have hc : cur ≠ "" := promptForInput_required_empty f cur lines rest h
  rcases lines with _ | ⟨line, k⟩
  · rw [promptForInput_nil] at h
    simp at h
  · by_cases hk : keepAnswer line
    · rw [promptForInput_keep f cur true line k hc hk] at h
      simp only [Prod.mk.injEq, Except.ok.injEq, true_and] at h
      exact ⟨line, by rw [h], hk⟩
    · exact absurd rfl (promptForInput_required_ne_empty f cur line k "" rest hk h)

theorem confirmService_noImage_kept (s o : EnhancedServiceConfig) (l l2 : List String)
    (hl : ∀ x ∈ l, strings.TrimSpace x ≠ "\x7b\x7bNO_IMAGE_SPECIFIED\x7d\x7d")
    (hc : confirmService s l = (Except.ok o, l2))
    (ho : o.ResolvedImage = "\x7b\x7bNO_IMAGE_SPECIFIED\x7d\x7d") :
    s.ResolvedImage = "\x7b\x7bNO_IMAGE_SPECIFIED\x7d\x7d" ∧
      ∃ (newName line : String) (k : List String),
        promptForInput "Service name" s.Name true l = (Except.ok newName, line :: k) ∧
        keepAnswer line := by
  obtain ⟨newName, k1, c, k2, hp, hr, hcp⟩ := (confirmService_ok_iff s o l l2).mp hc
  obtain ⟨rfl, _⟩ := (confirmPorts_ok_iff c o k2 l2).mp hcp
  obtain ⟨_, hs1⟩ := promptForInput_ok _ _ _ _ _ _ hp
  have hri : (if newName ≠ "" then { s with Name := newName } else s).ResolvedImage =
      s.ResolvedImage := by
    split_ifs <;> rfl
  obtain ⟨_, _, himg⟩ := resolveImage_ok _ _ _ _ hr
  rcases himg with ⟨e, hb⟩ | e | ⟨x, hx, e⟩ | e
  · have hsri : s.ResolvedImage = "\x7b\x7bNO_IMAGE_SPECIFIED\x7d\x7d" := by
      rw [← hri, ← e, ho]
    obtain ⟨newImage, hq, ht⟩ := (resolveImage_plain_ok_iff _ _ _ _ hb).mp hr
    by_cases hne : newImage = ""
    · subst hne
      obtain ⟨line, rfl, hk⟩ := promptForInput_empty_keep _ _ _ _ hq
      exact ⟨hsri, newName, line, k2, hp, hk⟩
    · exfalso
      have hoi : o.ResolvedImage = newImage := by
        rw [ht, if_pos hne]
      obtain ⟨hv, _⟩ := promptForInput_ok _ _ _ _ _ _ hq
      rcases hv with hv | ⟨x, hx, hv⟩
      · exact hne hv
      · exact hl x (hs1.subset hx) (by rw [← hv, ← hoi, ho])
  · rw [e] at ho
    exact absurd ho (by decide)
  · exact absurd (by rw [← e, ho]) (hl x (hs1.subset hx))
  · rw [e] at ho
    exact absurd ho (append_latest_ne_noImage _)

/-- C10, amended: on a successful `ConfirmServices`, when no service name and no
trimmed input line begins with `{{BUILD_REQUIRED`, no returned service has a
`resolvedImage` that begins with `{{BUILD_REQUIRED:`; and when no trimmed input
line equals `{{NO_IMAGE_SPECIFIED}}`, a returned service has that `resolvedImage`
only if the input service at the same position had it and the response to its
image prompt, the line read after the name step, was a keep answer. -/
theorem ConfirmServices_markers_resolved (services : List EnhancedServiceConfig)
    (lines : List String) (out : List EnhancedServiceConfig) (rest : List String)
    (hok : ConfirmServices services lines = (Except.ok out, rest)) :
    ((∀ s ∈ services, strings.HasPrefix s.Name "\x7b\x7bBUILD_REQUIRED" = false) →
      (∀ l ∈ lines,
        strings.HasPrefix (strings.TrimSpace l) "\x7b\x7bBUILD_REQUIRED" = false) →
      ∀ o ∈ out, strings.HasPrefix o.ResolvedImage "\x7b\x7bBUILD_REQUIRED:" = false) ∧
    ((∀ l ∈ lines, strings.TrimSpace l ≠ "\x7b\x7bNO_IMAGE_SPECIFIED\x7d\x7d") →
      List.Forall₂
        (fun s o => o.ResolvedImage = "\x7b\x7bNO_IMAGE_SPECIFIED\x7d\x7d" →
          s.ResolvedImage = "\x7b\x7bNO_IMAGE_SPECIFIED\x7d\x7d" ∧
          ∃ (l l2 : List String) (newName line : String) (k : List String),
            l <:+ lines ∧ confirmService s l = (Except.ok o, l2) ∧
            promptForInput "Service name" s.Name true l = (Except.ok newName, line :: k) ∧
            keepAnswer line)
        services out) := by
  constructor
  · intro hnames hlines o ho
    rcases confirmLoop_mem services [] lines out rest hok o ho with
      hm | ⟨s, hs, l1, l2, hl1, hc⟩
    · simp at hm
    · obtain ⟨_, hname, himg⟩ := confirmService_ok _ _ _ _ hc
      have hn : strings.HasPrefix o.Name "\x7b\x7bBUILD_REQUIRED" = false := by
        rcases hname with e | ⟨l, hl, e⟩
        · rw [e]
          exact hnames s hs
        · rw [e]
          exact hlines l (hl1.subset hl)
      rcases himg with ⟨e, h0⟩ | e | ⟨l, hl, e⟩ | e
      · rw [e]
        exact h0
      · rw [e]
        decide
      · rw [e]
        exact HasPrefix_marker_colon _ (hlines l (hl1.subset hl))
      · rw [e]
        exact HasPrefix_marker_latest _ hn
  · intro hlines
    refine (ConfirmServices_pairwise services lines out rest hok).imp ?_
    rintro s o ⟨l, l2, hsuf, hc⟩ ho
    obtain ⟨hsri, newName, line, k, hp, hk⟩ :=
      confirmService_noImage_kept s o l l2 (fun x hx => hlines x (hsuf.subset hx)) hc ho
    exact ⟨hsri, l, l2, newName, line, k, hsuf, hc, hp, hk⟩

/-- The service "web" with build context "./svc", confirmed with choice "1" and
image "nginx:latest", and the service "db" without image and build, confirmed
with two empty lines. -/
theorem ConfirmServices_markers_resolved_witness :
    ConfirmServices
        [{ Name := "web", ResolvedImage := "\x7b\x7bBUILD_REQUIRED:./svc\x7d\x7d" }]
        ["", "1", "nginx:latest"] =
      (Except.ok [{ Name := "web", ResolvedImage := "nginx:latest" }], []) ∧
    strings.HasPrefix "nginx:latest" "\x7b\x7bBUILD_REQUIRED:" = false ∧
    List.Forall₂
      (fun s o => o.ResolvedImage = "\x7b\x7bNO_IMAGE_SPECIFIED\x7d\x7d" →
        s.ResolvedImage = "\x7b\x7bNO_IMAGE_SPECIFIED\x7d\x7d" ∧
        ∃ (l l2 : List String) (newName line : String) (k : List String),
          l <:+ ["", ""] ∧ confirmService s l = (Except.ok o, l2) ∧
          promptForInput "Service name" s.Name true l = (Except.ok newName, line :: k) ∧
          keepAnswer line)
      [({ Name := "db", ResolvedImage := "\x7b\x7bNO_IMAGE_SPECIFIED\x7d\x7d" } :
        EnhancedServiceConfig)]
      [{ Name := "db", ResolvedImage := "\x7b\x7bNO_IMAGE_SPECIFIED\x7d\x7d" }] :=
  ⟨by rfl,
    (ConfirmServices_markers_resolved
      [{ Name := "web", ResolvedImage := "\x7b\x7bBUILD_REQUIRED:./svc\x7d\x7d" }]
      ["", "1", "nginx:latest"]
      [{ Name := "web", ResolvedImage := "nginx:latest" }] [] (by rfl)).1
      (by intro s hs; rw [List.mem_singleton.mp hs]; decide) (by decide)
      { Name := "web", ResolvedImage := "nginx:latest" } (List.mem_singleton.mpr rfl),
    (ConfirmServices_markers_resolved
      [{ Name := "db", ResolvedImage := "\x7b\x7bNO_IMAGE_SPECIFIED\x7d\x7d" }]
      ["", ""]
      [{ Name := "db", ResolvedImage := "\x7b\x7bNO_IMAGE_SPECIFIED\x7d\x7d" }] [] (by rfl)).2
      (by decide)⟩

end Confirmation

end Nompose
